import Mathlib

/-!
Verification development for the multi-stream incremental YARA-X scanner
(`src/lib/src/scanner/multi_stream.rs`, `streaming.rs`, `mod.rs`,
`offset_cache.rs`).

Bytes are modelled as natural numbers, byte strings as `List Nat`.
Pattern ids and rule ids are indices (`Nat`) into the compiled-rules lists.
The WASM condition evaluator and the Aho-Corasick search primitive are not
part of the sources under `src/`; they are modelled from the specification
(sections 4.2 and 6.1): the search primitive reads only the current chunk
and records occurrences rebased by the stream's global offset, and the
evaluator is a per-rule boolean condition over the cumulative match store.
-/

namespace YaraStream

/-- Byte strings. -/
abbrev Bytes := List Nat

/-- A per-pattern match store: pattern id to the insertion-ordered list of
global start offsets of its recorded matches. -/
abbrev Store := Nat → List Nat

/-- `isAt p d i` holds when pattern `p` occurs in data `d` at position `i`. -/
def isAt (p d : Bytes) (i : Nat) : Bool :=
  decide (i + p.length ≤ d.length) && ((d.drop i).take p.length == p)

/-- Modelled from the spec (section 4.2): the multi-pattern search primitive
reports, for a pattern `p` and chunk `d`, all chunk-local occurrence
positions, in increasing order. -/
def occurrencesIn (p d : Bytes) : List Nat :=
  (List.range (d.length + 1)).filter (fun i => isAt p d i)

theorem isAt_append_left {p a : Bytes} (b : Bytes) {i : Nat}
    (h : i + p.length ≤ a.length) : isAt p (a ++ b) i = isAt p a i := by
  have h2 : ((a ++ b).drop i).take p.length = (a.drop i).take p.length := by
    rw [List.drop_append_eq_append_drop]
    rw [List.take_append_eq_append_take]
    have hlen : p.length ≤ (a.drop i).length := by
      simp only [List.length_drop]
      omega
    rw [Nat.sub_eq_zero_of_le hlen]
    simp
  have hd : decide (i + p.length ≤ (a ++ b).length)
      = decide (i + p.length ≤ a.length) := by
    apply decide_eq_decide.mpr
    simp only [List.length_append]
    exact ⟨fun _ => h, fun _ => by omega⟩
  unfold isAt
  rw [h2, hd]

theorem isAt_append_right {p : Bytes} (a : Bytes) {b : Bytes} (j : Nat) :
    isAt p (a ++ b) (a.length + j) = isAt p b j := by
  have h2 : ((a ++ b).drop (a.length + j)).take p.length
      = (b.drop j).take p.length := by
    rw [List.drop_append_eq_append_drop]
    have ha : a.drop (a.length + j) = [] :=
      List.drop_eq_nil_of_le (Nat.le_add_right _ _)
    have hb : a.length + j - a.length = j := by omega
    rw [ha, hb]
    simp
  have hd : decide (a.length + j + p.length ≤ (a ++ b).length)
      = decide (j + p.length ≤ b.length) := by
    apply decide_eq_decide.mpr
    simp only [List.length_append]
    exact ⟨fun h => by omega, fun h => by omega⟩
  unfold isAt
  rw [h2, hd]

theorem isAt_extend {p a : Bytes} (b : Bytes) {i : Nat}
    (h : isAt p a i = true) : isAt p (a ++ b) i = true := by
  have hle : i + p.length ≤ a.length := by
    unfold isAt at h
    simp only [Bool.and_eq_true, decide_eq_true_eq] at h
    exact h.1
  rw [isAt_append_left b hle]
  exact h

/-- Sanity check: "ab" occurs in "xaby" at position 1 only. -/
example : occurrencesIn [97, 98] [120, 97, 98, 121] = [1] := by decide

example : occurrencesIn [97] [97, 98, 97] = [0, 2] := by decide

/-- `splitOK p a b`: no occurrence of `p` in `a ++ b` spans the boundary
between `a` and `b`. -/
def splitOK (p a b : Bytes) : Bool :=
  (List.range ((a ++ b).length + 1)).all
    (fun i => !(isAt p (a ++ b) i) || decide (i + p.length ≤ a.length)
      || decide (a.length ≤ i))

theorem splitOK_spec {p a b : Bytes} (h : splitOK p a b = true) {i : Nat}
    (hi : isAt p (a ++ b) i = true) :
    i + p.length ≤ a.length ∨ a.length ≤ i := by
  have hmem : i ∈ List.range ((a ++ b).length + 1) := by
    rw [List.mem_range]
    unfold isAt at hi
    simp only [Bool.and_eq_true, decide_eq_true_eq] at hi
    omega
  have := (List.all_eq_true.mp h) i hmem
  rw [hi] at this
  simp only [Bool.not_true, Bool.false_or, Bool.or_eq_true,
    decide_eq_true_eq] at this
  exact this

theorem occurrencesIn_congr_filter (p d : Bytes) (hp : p ≠ []) :
    occurrencesIn p d = (List.range d.length).filter (fun i => isAt p d i) := by
  unfold occurrencesIn
  rw [List.range_succ, List.filter_append]
  have : isAt p d d.length = false := by
    unfold isAt
    have : ¬ (d.length + p.length ≤ d.length) := by
      have : p.length ≠ 0 := fun h => hp (List.eq_nil_of_length_eq_zero h)
      omega
    simp [this]
  simp [this]

theorem occurrencesIn_def (p d : Bytes) :
    occurrencesIn p d
      = (List.range (d.length + 1)).filter (fun i => isAt p d i) := rfl

theorem occ_append_part1 {p a : Bytes} (b : Bytes) (hp : p ≠ [])
    (hs : splitOK p a b = true) :
    (List.range a.length).filter (fun i => isAt p (a ++ b) i)
      = occurrencesIn p a := by
  rw [occurrencesIn_congr_filter p a hp]
  apply List.filter_congr
  intro i hi
  rw [List.mem_range] at hi
  by_cases hfit : i + p.length ≤ a.length
  · exact isAt_append_left b hfit
  · -- i < |a| but pattern does not fit in a: spanning is excluded
    have h1 : isAt p (a ++ b) i = false := by
      by_contra hne
      have htrue : isAt p (a ++ b) i = true := by
        cases h : isAt p (a ++ b) i
        · exact absurd h hne
        · rfl
      rcases splitOK_spec hs htrue with h' | h'
      · exact hfit h'
      · omega
    have h2 : isAt p a i = false := by
      unfold isAt
      simp [hfit]
    rw [h1, h2]

theorem occ_append_part2 {p : Bytes} (a b : Bytes) :
    ((List.range (b.length + 1)).map (a.length + ·)).filter
        (fun i => isAt p (a ++ b) i)
      = (occurrencesIn p b).map (· + a.length) := by
  rw [List.filter_map]
  have hinner : (List.range (b.length + 1)).filter
      ((fun i => isAt p (a ++ b) i) ∘ (a.length + ·)) = occurrencesIn p b := by
    rw [occurrencesIn_def]
    apply List.filter_congr
    intro j _
    simp only [Function.comp_apply]
    exact isAt_append_right a j
  rw [hinner]
  apply List.map_congr_left
  intro j _
  omega

/-- The central boundary lemma: when no occurrence of `p` spans the boundary
of `a ++ b`, the occurrences in the concatenation are exactly the
occurrences in `a` followed by the occurrences in `b` rebased by `|a|`. -/
theorem occurrencesIn_append {p a b : Bytes} (hp : p ≠ [])
    (hs : splitOK p a b = true) :
    occurrencesIn p (a ++ b)
      = occurrencesIn p a ++ (occurrencesIn p b).map (· + a.length) := by
  have hlen : (a ++ b).length + 1 = a.length + (b.length + 1) := by
    simp only [List.length_append]
    omega
  rw [occurrencesIn_def, hlen, List.range_add, List.filter_append,
    occ_append_part1 b hp hs, occ_append_part2 a b]

/-! ## Compiled rules and the per-stream match state

The compiled rule artifact (consumed, not produced; spec section 3) exposes
the pattern list, the per-rule private flag, and the rule conditions.  The
condition evaluator is out of scope of the sources under `src/`; it is
modelled from the spec (section 6.1) as a boolean condition per rule over
the cumulative match store. -/

/-- Per-rule information from the compiled rule artifact. -/
structure RuleInfo where
  is_private : Bool

/-- Modelled from the spec: the compiled rule artifact.  `patterns` is
indexed by pattern id; `ruleInfo` is indexed by rule id; `cond r` is rule
`r`'s condition, a black-box predicate over the cumulative match store;
`max_matches_per_pattern` is the dispatcher-level per-pattern cap. -/
structure CompiledRules where
  patterns : List Bytes
  ruleInfo : List RuleInfo
  cond : Nat → Store → Bool
  max_matches_per_pattern : Nat

def CompiledRules.num_rules (R : CompiledRules) : Nat := R.ruleInfo.length

def CompiledRules.num_patterns (R : CompiledRules) : Nat := R.patterns.length

/-- Whether rule `r` is private (multi_stream.rs line 446:
`ctx.compiled_rules.get(rule_id).is_private`). -/
def rulePriv (R : CompiledRules) (r : Nat) : Bool :=
  (R.ruleInfo.getD r ⟨false⟩).is_private

/-- Append new matches to a pattern's list, honoring the per-pattern cap
(spec section 4.1: further matches for a capped pattern are dropped). -/
def capAdd (cap : Nat) (old new : List Nat) : List Nat :=
  old ++ new.take (cap - old.length)

/-- Modelled from the spec (section 4.2): one invocation of the search
primitive over chunk `dat` at global offset `offset`.  For every pattern
not in `limit_reached` it appends the chunk-local occurrences rebased by
`offset`, honoring the cap; patterns that reach the cap enter
`limit_reached`. -/
def searchChunk (R : CompiledRules) (store : Store) (lr : Nat → Bool)
    (dat : Bytes) (offset : Nat) : Store × (Nat → Bool) :=
  let st' : Store := fun pid =>
    if pid < R.patterns.length ∧ lr pid = false then
      capAdd R.max_matches_per_pattern (store pid)
        ((occurrencesIn (R.patterns.getD pid []) dat).map (· + offset))
    else store pid
  (st', fun pid =>
    lr pid || (decide (pid < R.patterns.length)
      && decide (R.max_matches_per_pattern ≤ (st' pid).length)))

/-- Modelled from the spec (section 4.3): the rule ids that the evaluator
reports as matching against the cumulative store, in rule-id order. -/
def firedRules (R : CompiledRules) (store : Store) : List Nat :=
  (List.range R.num_rules).filter (fun r => R.cond r store)

/-- One step of the drain loop (multi_stream.rs lines 444-456): a drained
rule id goes to the private list when its rule is private, otherwise to the
non-private list, in both cases only when not already present. -/
def drainStep (R : CompiledRules) : List Nat × List Nat → Nat → List Nat × List Nat :=
  fun np rid =>
    if rulePriv R rid then
      if rid ∈ np.2 then np else (np.1, np.2 ++ [rid])
    else
      if rid ∈ np.1 then np else (np.1 ++ [rid], np.2)

/-- Drain the per-scan pending rule ids into the cumulative
(non-private, private) match lists (multi_stream.rs lines 443-456). -/
def drainPending (R : CompiledRules) (np pr pending : List Nat) :
    List Nat × List Nat :=
  pending.foldl (drainStep R) (np, pr)

/-- The mutable per-stream match state swapped in and out of the evaluator
harness.  Mirrors the swapped fields of `ScanContext` / `StreamContext`
(multi_stream.rs lines 36-60 and 81-120): the pattern-match store, the
limit-reached set, the two cumulative rule-match lists, the per-scan
pending map (`matching_rules`) and the global scan offset.  The rule and
pattern bitmaps are derived data (bit `i` set iff the corresponding list is
non-empty resp. the rule is in a match list) and are not modelled
separately; chained-pattern unconfirmed matches are not modelled (the
modelled search primitive has no chained patterns). -/
structure MatchState where
  pattern_matches : Store
  limit_reached : Nat → Bool
  non_private_matching_rules : List Nat
  private_matching_rules : List Nat
  matching_rules : List Nat
  global_scan_offset : Nat

/-- The initial (zeroed) match state. -/
def MatchState.init : MatchState :=
  { pattern_matches := fun _ => []
    limit_reached := fun _ => false
    non_private_matching_rules := []
    private_matching_rules := []
    matching_rules := []
    global_scan_offset := 0 }

/-- Per-stream context: the saved match state plus the byte and line
counters (multi_stream.rs `StreamContext`). -/
structure StreamContext where
  m : MatchState
  total_bytes_processed : Nat
  line_count : Nat

/-- `StreamContext::new` (multi_stream.rs lines 63-78): zero-initialized. -/
def StreamContext.new : StreamContext :=
  { m := MatchState.init, total_bytes_processed := 0, line_count := 0 }

/-- `StreamContext::save_from_scanner` (multi_stream.rs lines 81-100):
copies the scanner's swapped state into the stream context; the counters
are untouched. -/
def StreamContext.save_from_scanner (sc : StreamContext) (c : MatchState) :
    StreamContext :=
  { sc with m := c }

/-- `StreamContext::restore_to_scanner` (multi_stream.rs lines 103-120). -/
def StreamContext.restore_to_scanner (sc : StreamContext) : MatchState :=
  sc.m

/-- Number of newline bytes in a chunk. -/
def countNewlines (dat : Bytes) : Nat :=
  (dat.filter (fun b => b == 10)).length

/-- Line count contributed by one chunk (multi_stream.rs lines 470-478):
newlines, plus one when the chunk is non-empty and does not end with a
newline. -/
def chunkLineCount (dat : Bytes) : Nat :=
  countNewlines dat
    + (if dat ≠ [] ∧ dat.getLast? ≠ some 10 then 1 else 0)

example : chunkLineCount [108, 10, 108, 10] = 2 := by decide

example : chunkLineCount [97, 10, 98] = 2 := by decide

example : chunkLineCount [] = 0 := by decide

/-- The harness match state right after a successful evaluator invocation
and drain, computed from the pre-scan harness state `c`, the per-scan
global offset and the chunk (multi_stream.rs lines 396-459). -/
def stepParts (R : CompiledRules) (c : MatchState) (offset : Nat)
    (dat : Bytes) : MatchState where
  pattern_matches := (searchChunk R c.pattern_matches c.limit_reached dat offset).1
  limit_reached := (searchChunk R c.pattern_matches c.limit_reached dat offset).2
  non_private_matching_rules :=
    (drainPending R c.non_private_matching_rules c.private_matching_rules
      (firedRules R (searchChunk R c.pattern_matches c.limit_reached dat offset).1)).1
  private_matching_rules :=
    (drainPending R c.non_private_matching_rules c.private_matching_rules
      (firedRules R (searchChunk R c.pattern_matches c.limit_reached dat offset).1)).2
  matching_rules := []
  global_scan_offset := offset

/-- The stream context saved back after a successful scan: the post-run
harness state with the counters advanced and the saved global offset set to
the new total (multi_stream.rs lines 461-482). -/
def postScanContext (R : CompiledRules) (c : MatchState) (sc : StreamContext)
    (dat : Bytes) (count_lines : Bool) : StreamContext where
  m := { stepParts R c sc.total_bytes_processed dat with
           global_scan_offset := sc.total_bytes_processed + dat.length }
  total_bytes_processed := sc.total_bytes_processed + dat.length
  line_count := sc.line_count + (if count_lines then chunkLineCount dat else 1)

/-- The pure single-stream step: the effect of one successful scan on one
stream's context, with the harness holding exactly that stream's state. -/
def pureStep (R : CompiledRules) (sc : StreamContext) (dat : Bytes)
    (count_lines : Bool) : StreamContext :=
  postScanContext R sc.m sc dat count_lines

/-! ## Association-list model of the `HashMap<Uuid, StreamContext>`

Stream keys are opaque identifiers compared byte-wise (spec section 6.4);
they are modelled as naturals. -/

/-- Lookup of the first entry with the given key. -/
def lookupA {α : Type} : List (Nat × α) → Nat → Option α
  | [], _ => none
  | (k', v) :: rest, k => if k' = k then some v else lookupA rest k

/-- Insert-or-replace for the given key. -/
def insertA {α : Type} : List (Nat × α) → Nat → α → List (Nat × α)
  | [], k, v => [(k, v)]
  | (k', v') :: rest, k, v =>
    if k' = k then (k, v) :: rest else (k', v') :: insertA rest k v

/-- Remove all entries with the given key. -/
def removeA {α : Type} (l : List (Nat × α)) (k : Nat) : List (Nat × α) :=
  l.filter (fun e => e.1 != k)

theorem lookupA_insertA_self {α : Type} (l : List (Nat × α)) (k : Nat) (v : α) :
    lookupA (insertA l k v) k = some v := by
  induction l with
  | nil => simp [insertA, lookupA]
  | cons e rest ih =>
    obtain ⟨k', v'⟩ := e
    by_cases h : k' = k
    · simp [insertA, h, lookupA]
    · simp [insertA, h, lookupA, ih]

theorem lookupA_insertA_ne {α : Type} (l : List (Nat × α)) {k s : Nat} (v : α)
    (h : k ≠ s) : lookupA (insertA l k v) s = lookupA l s := by
  induction l with
  | nil => simp [insertA, lookupA, h]
  | cons e rest ih =>
    obtain ⟨k', v'⟩ := e
    simp only [insertA]
    by_cases hk : k' = k
    · subst hk
      simp [lookupA, h]
    · simp only [hk, if_false, lookupA]
      by_cases hs : k' = s
      · simp [hs]
      · simp [hs, ih]

theorem lookupA_removeA_self {α : Type} (l : List (Nat × α)) (k : Nat) :
    lookupA (removeA l k) k = none := by
  induction l with
  | nil => rfl
  | cons e rest ih =>
    obtain ⟨k', v'⟩ := e
    simp only [removeA, List.filter_cons]
    by_cases h : k' = k
    · subst h
      simp only [bne_self_eq_false]
      exact ih
    · have hb : (k' != k) = true := by simp [bne_iff_ne, h]
      simp only [hb, if_true, lookupA, h, if_false]
      exact ih

theorem lookupA_removeA_ne {α : Type} (l : List (Nat × α)) {k s : Nat}
    (h : k ≠ s) : lookupA (removeA l k) s = lookupA l s := by
  induction l with
  | nil => rfl
  | cons e rest ih =>
    obtain ⟨k', v'⟩ := e
    simp only [removeA, List.filter_cons]
    by_cases hk : k' = k
    · have hb : (k' != k) = false := by simp [hk]
      have hs : ¬ (k' = s) := by rw [hk]; exact h
      rw [hb]
      simp only [Bool.false_eq_true, if_false, lookupA, hs, if_false]
      exact ih
    · have hb : (k' != k) = true := by simp [bne_iff_ne, hk]
      rw [hb]
      simp only [if_true, lookupA]
      by_cases hs : k' = s
      · simp [hs]
      · simp only [hs, if_false]
        exact ih

theorem mem_keys_of_lookupA {α : Type} {l : List (Nat × α)} {k : Nat} {v : α}
    (h : lookupA l k = some v) : k ∈ l.map Prod.fst := by
  induction l with
  | nil => simp [lookupA] at h
  | cons e rest ih =>
    obtain ⟨k', v'⟩ := e
    by_cases hk : k' = k
    · simp [hk]
    · simp only [lookupA, hk, if_false] at h
      simp [ih h]

theorem keys_insertA {α : Type} (l : List (Nat × α)) (k : Nat) (v : α) (s : Nat) :
    (s ∈ (insertA l k v).map Prod.fst) ↔ (s = k ∨ s ∈ l.map Prod.fst) := by
  induction l with
  | nil => simp [insertA]
  | cons e rest ih =>
    obtain ⟨k', v'⟩ := e
    by_cases hk : k' = k
    · subst hk
      simp [insertA]
    · simp only [insertA, hk, if_false, List.map_cons, List.mem_cons, ih]
      tauto

/-! ## The multi-stream dispatcher -/

/-- `MultiStreamScanner` (multi_stream.rs lines 162-177): the shared
harness state (`wasm_store.data()` plus the bitmaps in WASM memory), the
map of saved per-stream contexts, the active stream, the scan timeout, and
the module-initialization flag.  The compiled rules are passed explicitly
to the operations. -/
structure MultiStreamScanner where
  ctx : MatchState
  contexts : List (Nat × StreamContext)
  active_stream : Option Nat
  timeout : Option Nat
  modules_initialized : Bool

/-- `MultiStreamScanner::new` (multi_stream.rs lines 181-301). -/
def MultiStreamScanner.new : MultiStreamScanner :=
  { ctx := MatchState.init
    contexts := []
    active_stream := none
    timeout := none
    modules_initialized := false }

/-- `MultiStreamScanner::set_timeout` (multi_stream.rs lines 304-307).
The model restricts user timeouts to whole seconds. -/
def MultiStreamScanner.set_timeout (d : MultiStreamScanner) (secs : Nat) :
    MultiStreamScanner :=
  { d with timeout := some secs }

/-- `MultiStreamScanner::switch_to_stream` (multi_stream.rs lines 488-527):
when the key is not already active, save the harness into the currently
active context (if any), then restore the requested context (creating a
zero-initialized one for an unknown key) and mark it active. -/
def switch_to_stream (d : MultiStreamScanner) (k : Nat) : MultiStreamScanner :=
  if d.active_stream = some k then d
  else
    let contexts1 :=
      match d.active_stream with
      | some j =>
        match lookupA d.contexts j with
        | some cj => insertA d.contexts j (cj.save_from_scanner d.ctx)
        | none => d.contexts
      | none => d.contexts
    match lookupA contexts1 k with
    | some ck =>
      { d with ctx := ck.restore_to_scanner, contexts := contexts1,
               active_stream := some k }
    | none =>
      { d with ctx := StreamContext.new.restore_to_scanner,
               contexts := insertA contexts1 k StreamContext.new,
               active_stream := some k }

/-- The success path of `_scan_data` after the stream switch
(multi_stream.rs lines 393-484): run the evaluator on the chunk at the
stream's global offset, drain the pending rules, save the harness back into
the stream's context and advance the counters. -/
def successPath (R : CompiledRules) (d1 : MultiStreamScanner) (k : Nat)
    (dat : Bytes) (count_lines : Bool) : MultiStreamScanner :=
  { d1 with
    ctx := stepParts R d1.ctx
      ((lookupA d1.contexts k).getD StreamContext.new).total_bytes_processed dat
    contexts := insertA d1.contexts k
      (postScanContext R d1.ctx
        ((lookupA d1.contexts k).getD StreamContext.new) dat count_lines)
    modules_initialized := true }

/-- Scan error kinds relevant to the modelled operations (scanner/mod.rs
`ScanError`; `Timeout` is the deadline-expiry kind, `ModuleError` the
module-initialization failure). -/
inductive ScanErr where
  | timeout
  | moduleError
deriving DecidableEq

/-- `MultiStreamScanner::_scan_data` (multi_stream.rs lines 348-485).
Whether the module initialization and the evaluator invocation succeed
depends on wall-clock time and on the modules; it is supplied as the
`outcome` oracle: `none` means the scan succeeds.  A module error returns
right after the switch (line 389); a timeout returns after the pre-run
preparation, before any counter update (line 431); the counters are
advanced only on the success path (lines 461-482). -/
def scanData (R : CompiledRules) (outcome : Option ScanErr)
    (d : MultiStreamScanner) (k : Nat) (dat : Bytes) (count_lines : Bool) :
    MultiStreamScanner × Option ScanErr :=
  let d1 := switch_to_stream d k
  match outcome with
  | some ScanErr.moduleError => (d1, some ScanErr.moduleError)
  | some ScanErr.timeout =>
    let sc := (lookupA d1.contexts k).getD StreamContext.new
    ({ d1 with ctx := { d1.ctx with
         global_scan_offset := sc.total_bytes_processed,
         matching_rules := [] } }, some ScanErr.timeout)
  | none => (successPath R d1 k dat count_lines, none)

/-- A successful `_scan_data` call. -/
def scanDataOk (R : CompiledRules) (d : MultiStreamScanner) (k : Nat)
    (dat : Bytes) (count_lines : Bool) : MultiStreamScanner :=
  (scanData R none d k dat count_lines).1

/-- `MultiStreamScanner::scan_chunk` (multi_stream.rs lines 338-340),
success case. -/
def scan_chunk (R : CompiledRules) (d : MultiStreamScanner) (k : Nat)
    (dat : Bytes) : MultiStreamScanner :=
  scanDataOk R d k dat true

/-- `MultiStreamScanner::scan_line` (multi_stream.rs lines 343-345),
success case. -/
def scan_line (R : CompiledRules) (d : MultiStreamScanner) (k : Nat)
    (dat : Bytes) : MultiStreamScanner :=
  scanDataOk R d k dat false

/-- `MultiStreamScanner::get_matches` composed with
`MultiStreamScanResults::matching_rules` (multi_stream.rs lines 616-626 and
796-815): `none` for an unknown key; for a known key the non-private rule
ids, read from the harness when the key is active and from the saved
context otherwise. -/
def get_matches (d : MultiStreamScanner) (k : Nat) : Option (List Nat) :=
  match lookupA d.contexts k with
  | none => none
  | some sc =>
    some (if d.active_stream = some k
      then d.ctx.non_private_matching_rules
      else sc.m.non_private_matching_rules)

/-- Final results returned by `close_stream` (multi_stream.rs lines
780-787). -/
structure FinalStreamResults where
  non_private_matching_rules : List Nat
  bytes_processed : Nat
  lines_processed : Nat
deriving DecidableEq

/-- `MultiStreamScanner::close_stream` (multi_stream.rs lines 629-647):
save the harness into the context when the key is active, clear the active
stream, then remove the context and return its final state. -/
def close_stream (d : MultiStreamScanner) (k : Nat) :
    Option FinalStreamResults × MultiStreamScanner :=
  let d1 :=
    if d.active_stream = some k then
      { d with
        contexts :=
          match lookupA d.contexts k with
          | some c => insertA d.contexts k (c.save_from_scanner d.ctx)
          | none => d.contexts
        active_stream := none }
    else d
  match lookupA d1.contexts k with
  | some c =>
    (some { non_private_matching_rules := c.m.non_private_matching_rules
            bytes_processed := c.total_bytes_processed
            lines_processed := c.line_count },
     { d1 with contexts := removeA d1.contexts k })
  | none => (none, d1)

/-- `MultiStreamScanner::active_streams` (multi_stream.rs lines 650-652). -/
def active_streams (d : MultiStreamScanner) : List Nat :=
  d.contexts.map Prod.fst

/-- `MultiStreamScanner::reset_stream` (multi_stream.rs lines 655-672):
replace a known key's context with a zero-initialized one, and when the key
is active also restore the zeroed state into the harness. -/
def reset_stream (d : MultiStreamScanner) (k : Nat) : MultiStreamScanner :=
  match lookupA d.contexts k with
  | some _ =>
    let d1 := { d with contexts := insertA d.contexts k StreamContext.new }
    if d.active_stream = some k then
      { d1 with ctx := StreamContext.new.restore_to_scanner }
    else d1
  | none => d

/-- `MultiStreamScanner::bytes_processed` (multi_stream.rs lines 675-682). -/
def bytes_processed (d : MultiStreamScanner) (k : Nat) : Option Nat :=
  (lookupA d.contexts k).map (fun sc => sc.total_bytes_processed)

/-- `MultiStreamScanner::lines_processed` (multi_stream.rs lines 685-692). -/
def lines_processed (d : MultiStreamScanner) (k : Nat) : Option Nat :=
  (lookupA d.contexts k).map (fun sc => sc.line_count)

/-! ## The single-stream `StreamingScanner` (streaming.rs) -/

/-- `StreamingScanner` (streaming.rs lines 75-88): one stream's state plus
the counters; there is no context map or switching. -/
structure StreamingScanner where
  ctx : MatchState
  total_bytes_processed : Nat
  line_count : Nat

/-- `StreamingScanner::new` (streaming.rs lines 92-212). -/
def StreamingScanner.new : StreamingScanner :=
  { ctx := MatchState.init, total_bytes_processed := 0, line_count := 0 }

/-- `StreamingScanner::_scan_data` (streaming.rs lines 305-466), success
case: identical per-chunk algorithm, with the counters held directly by the
scanner (lines 449-463). -/
def StreamingScanner.scanDataOk (R : CompiledRules) (s : StreamingScanner)
    (dat : Bytes) (count_lines : Bool) : StreamingScanner :=
  { ctx := stepParts R s.ctx s.total_bytes_processed dat
    total_bytes_processed := s.total_bytes_processed + dat.length
    line_count := s.line_count + (if count_lines then chunkLineCount dat else 1) }

/-! ## The single-shot `Scanner` (mod.rs) -/

/-- Modelled from the spec: the single-shot scanner's match store over the
whole data, at global offsets starting from zero, capped per pattern. -/
def ssStore (R : CompiledRules) (dat : Bytes) : Store := fun pid =>
  if pid < R.patterns.length then
    (occurrencesIn (R.patterns.getD pid []) dat).take R.max_matches_per_pattern
  else []

/-- `Scanner::scan` / `scan_impl` (mod.rs lines 630-895), success case:
the resulting (non-private, private) matching-rule lists.  The rules that
the evaluator reports are moved to the two vectors (mod.rs lines 874-882). -/
def scanSingleShot (R : CompiledRules) (dat : Bytes) : List Nat × List Nat :=
  ((firedRules R (ssStore R dat)).filter (fun r => rulePriv R r = false),
   (firedRules R (ssStore R dat)).filter (fun r => rulePriv R r = true))

/-! ## Operation sequences and observations -/

/-- Concatenation of a stream's chunks. -/
def flat : List Bytes → Bytes
  | [] => []
  | c :: rest => c ++ flat rest

/-- One dispatcher operation: a successful `scan_chunk` (`count_lines =
true`) or `scan_line` (`count_lines = false`) call. -/
structure ScanOp where
  key : Nat
  dat : Bytes
  count_lines : Bool

/-- Run a sequence of successful scan calls. -/
def runOps (R : CompiledRules) (d : MultiStreamScanner) :
    List ScanOp → MultiStreamScanner
  | [] => d
  | op :: rest => runOps R (scanDataOk R d op.key op.dat op.count_lines) rest

/-- The chunk sequence a given stream receives from an operation
sequence. -/
def chunksOf (ops : List ScanOp) (s : Nat) : List (Bytes × Bool) :=
  ops.filterMap (fun op =>
    if op.key = s then some (op.dat, op.count_lines) else none)

/-- The per-stream observable state: everything a claim observes about one
stream (`matching_rules` is a per-scan scratch and `global_scan_offset` is
recomputed before every evaluator run; neither is observable). -/
structure StreamObs where
  pattern_matches : Store
  limit_reached : Nat → Bool
  non_private_matching_rules : List Nat
  private_matching_rules : List Nat
  total_bytes_processed : Nat
  line_count : Nat

def obsOf (sc : StreamContext) : StreamObs :=
  { pattern_matches := sc.m.pattern_matches
    limit_reached := sc.m.limit_reached
    non_private_matching_rules := sc.m.non_private_matching_rules
    private_matching_rules := sc.m.private_matching_rules
    total_bytes_processed := sc.total_bytes_processed
    line_count := sc.line_count }

def obsInit : StreamObs := obsOf StreamContext.new

/-- The observable effect of one successful scan on one stream. -/
def obsStep (R : CompiledRules) (o : StreamObs) (dat : Bytes)
    (count_lines : Bool) : StreamObs where
  pattern_matches :=
    (searchChunk R o.pattern_matches o.limit_reached dat o.total_bytes_processed).1
  limit_reached :=
    (searchChunk R o.pattern_matches o.limit_reached dat o.total_bytes_processed).2
  non_private_matching_rules :=
    (drainPending R o.non_private_matching_rules o.private_matching_rules
      (firedRules R (searchChunk R o.pattern_matches o.limit_reached dat
        o.total_bytes_processed).1)).1
  private_matching_rules :=
    (drainPending R o.non_private_matching_rules o.private_matching_rules
      (firedRules R (searchChunk R o.pattern_matches o.limit_reached dat
        o.total_bytes_processed).1)).2
  total_bytes_processed := o.total_bytes_processed + dat.length
  line_count := o.line_count + (if count_lines then chunkLineCount dat else 1)

theorem obsOf_pureStep (R : CompiledRules) (sc : StreamContext) (dat : Bytes)
    (cl : Bool) : obsOf (pureStep R sc dat cl) = obsStep R (obsOf sc) dat cl := rfl

/-- Fold of the observable step over a chunk sequence, from an optional
pre-existing stream state (`none`: the stream is created on first scan). -/
def streamRun (R : CompiledRules) :
    Option StreamObs → List (Bytes × Bool) → Option StreamObs
  | o, [] => o
  | o, c :: rest =>
    streamRun R (some (obsStep R (o.getD obsInit) c.1 c.2)) rest

/-- Agreement of the harness match state with a saved context on the four
swapped match fields (the per-scan scratch `matching_rules` and the
`global_scan_offset` are excluded: both are reset before every use). -/
def mAgrees (c : MatchState) (c' : MatchState) : Prop :=
  c.pattern_matches = c'.pattern_matches ∧
  c.limit_reached = c'.limit_reached ∧
  c.non_private_matching_rules = c'.non_private_matching_rules ∧
  c.private_matching_rules = c'.private_matching_rules

/-- Dispatcher invariant: whenever a stream is active, its context is in
the map and the harness holds its match state. -/
def INV (d : MultiStreamScanner) : Prop :=
  ∀ a, d.active_stream = some a →
    ∃ ca, lookupA d.contexts a = some ca ∧ mAgrees d.ctx ca.m

theorem INV_new : INV MultiStreamScanner.new := by
  intro a h
  simp [MultiStreamScanner.new] at h

/-! ## Characterization of scans through the save/restore machinery -/

theorem stepParts_congr (R : CompiledRules) {c c' : MatchState}
    (offset : Nat) (dat : Bytes) (h : mAgrees c c') :
    stepParts R c offset dat = stepParts R c' offset dat := by
  obtain ⟨h1, h2, h3, h4⟩ := h
  unfold stepParts
  rw [h1, h2, h3, h4]

theorem postScanContext_congr (R : CompiledRules) {c : MatchState}
    {sc : StreamContext} (dat : Bytes) (cl : Bool) (h : mAgrees c sc.m) :
    postScanContext R c sc dat cl = pureStep R sc dat cl := by
  unfold pureStep postScanContext
  rw [stepParts_congr R sc.total_bytes_processed dat h]

theorem obsOf_save {c : MatchState} {sc : StreamContext}
    (h : mAgrees c sc.m) : obsOf (sc.save_from_scanner c) = obsOf sc := by
  obtain ⟨h1, h2, h3, h4⟩ := h
  unfold obsOf StreamContext.save_from_scanner
  simp only [h1, h2, h3, h4]

theorem switch_eq_active {d : MultiStreamScanner} {k : Nat}
    (h : d.active_stream = some k) : switch_to_stream d k = d := by
  unfold switch_to_stream
  rw [if_pos h]

theorem switch_eq_idle_found {d : MultiStreamScanner} {k : Nat}
    {ck : StreamContext} (h1 : d.active_stream = none)
    (h2 : lookupA d.contexts k = some ck) :
    switch_to_stream d k
      = { d with ctx := ck.m, contexts := d.contexts,
                 active_stream := some k } := by
  have hne : ¬ d.active_stream = some k := by
    rw [h1]
    simp
  unfold switch_to_stream
  rw [if_neg hne]
  simp only [h1, h2, StreamContext.restore_to_scanner]

theorem switch_eq_idle_fresh {d : MultiStreamScanner} {k : Nat}
    (h1 : d.active_stream = none) (h2 : lookupA d.contexts k = none) :
    switch_to_stream d k
      = { d with ctx := MatchState.init,
                 contexts := insertA d.contexts k StreamContext.new,
                 active_stream := some k } := by
  have hne : ¬ d.active_stream = some k := by
    rw [h1]
    simp
  unfold switch_to_stream
  rw [if_neg hne]
  simp only [h1, h2, StreamContext.restore_to_scanner, StreamContext.new]

theorem switch_eq_busy_found {d : MultiStreamScanner} {j k : Nat}
    {cj ck : StreamContext} (h1 : d.active_stream = some j) (hjk : j ≠ k)
    (h2 : lookupA d.contexts j = some cj)
    (h3 : lookupA d.contexts k = some ck) :
    switch_to_stream d k
      = { d with ctx := ck.m,
                 contexts := insertA d.contexts j (cj.save_from_scanner d.ctx),
                 active_stream := some k } := by
  have hne : ¬ d.active_stream = some k := by
    rw [h1]
    simp [hjk]
  have h4 : lookupA (insertA d.contexts j (cj.save_from_scanner d.ctx)) k
      = some ck := by
    rw [lookupA_insertA_ne _ _ hjk, h3]
  unfold switch_to_stream
  rw [if_neg hne]
  simp only [h1, h2, h4, StreamContext.restore_to_scanner]

theorem switch_eq_busy_fresh {d : MultiStreamScanner} {j k : Nat}
    {cj : StreamContext} (h1 : d.active_stream = some j) (hjk : j ≠ k)
    (h2 : lookupA d.contexts j = some cj)
    (h3 : lookupA d.contexts k = none) :
    switch_to_stream d k
      = { d with ctx := MatchState.init,
                 contexts := insertA
                   (insertA d.contexts j (cj.save_from_scanner d.ctx)) k
                   StreamContext.new,
                 active_stream := some k } := by
  have hne : ¬ d.active_stream = some k := by
    rw [h1]
    simp [hjk]
  have h4 : lookupA (insertA d.contexts j (cj.save_from_scanner d.ctx)) k
      = none := by
    rw [lookupA_insertA_ne _ _ hjk, h3]
  unfold switch_to_stream
  rw [if_neg hne]
  simp only [h1, h2, h4, StreamContext.restore_to_scanner, StreamContext.new]

theorem switch_to_stream_spec (d : MultiStreamScanner) (k : Nat)
    (hInv : INV d) :
    (switch_to_stream d k).active_stream = some k ∧
    (∃ ck, lookupA (switch_to_stream d k).contexts k = some ck ∧
      mAgrees (switch_to_stream d k).ctx ck.m ∧
      (lookupA d.contexts k = some ck ∨
        (lookupA d.contexts k = none ∧ ck = StreamContext.new))) ∧
    (∀ s, s ≠ k → (lookupA (switch_to_stream d k).contexts s).map obsOf
        = (lookupA d.contexts s).map obsOf) := by
  by_cases hak : d.active_stream = some k
  · rcases hInv k hak with ⟨ca, hla, hma⟩
    rw [switch_eq_active hak]
    exact ⟨hak, ⟨ca, hla, hma, Or.inl hla⟩, fun s _ => rfl⟩
  · cases ha : d.active_stream with
    | none =>
      cases hk : lookupA d.contexts k with
      | some ck =>
        rw [switch_eq_idle_found ha hk]
        exact ⟨rfl, ⟨ck, hk, ⟨rfl, rfl, rfl, rfl⟩, Or.inl rfl⟩, fun s _ => rfl⟩
      | none =>
        rw [switch_eq_idle_fresh ha hk]
        refine ⟨rfl, ⟨StreamContext.new, lookupA_insertA_self _ _ _,
          ⟨rfl, rfl, rfl, rfl⟩, Or.inr ⟨rfl, rfl⟩⟩, ?_⟩
        intro s hs
        show (lookupA (insertA d.contexts k StreamContext.new) s).map obsOf
          = (lookupA d.contexts s).map obsOf
        rw [lookupA_insertA_ne _ _ (fun h => hs h.symm)]
    | some j =>
      rcases hInv j ha with ⟨cj, hlj, hmj⟩
      have hjk : j ≠ k := by
        intro h
        rw [h] at ha
        exact hak ha
      have hobs : ∀ s, s ≠ k →
          (lookupA (insertA d.contexts j (cj.save_from_scanner d.ctx)) s).map obsOf
            = (lookupA d.contexts s).map obsOf := by
        intro s _
        by_cases hsj : s = j
        · subst hsj
          rw [lookupA_insertA_self, hlj]
          show some (obsOf (cj.save_from_scanner d.ctx)) = some (obsOf cj)
          rw [obsOf_save hmj]
        · rw [lookupA_insertA_ne _ _ (fun h => hsj h.symm)]
      cases hk : lookupA d.contexts k with
      | some ck =>
        rw [switch_eq_busy_found ha hjk hlj hk]
        refine ⟨rfl, ⟨ck, ?_, ⟨rfl, rfl, rfl, rfl⟩, Or.inl rfl⟩, hobs⟩
        show lookupA (insertA d.contexts j (cj.save_from_scanner d.ctx)) k
          = some ck
        rw [lookupA_insertA_ne _ _ hjk, hk]
      | none =>
        rw [switch_eq_busy_fresh ha hjk hlj hk]
        refine ⟨rfl, ⟨StreamContext.new, lookupA_insertA_self _ _ _,
          ⟨rfl, rfl, rfl, rfl⟩, Or.inr ⟨rfl, rfl⟩⟩, ?_⟩
        intro s hs
        show (lookupA (insertA
            (insertA d.contexts j (cj.save_from_scanner d.ctx)) k
            StreamContext.new) s).map obsOf
          = (lookupA d.contexts s).map obsOf
        rw [lookupA_insertA_ne _ _ (fun h => hs h.symm)]
        exact hobs s hs

theorem scanDataOk_eq (R : CompiledRules) (d : MultiStreamScanner) (k : Nat)
    (dat : Bytes) (cl : Bool) :
    scanDataOk R d k dat cl = successPath R (switch_to_stream d k) k dat cl := rfl

theorem scanDataOk_lookup_self (R : CompiledRules) (d : MultiStreamScanner)
    (k : Nat) (dat : Bytes) (cl : Bool) (hInv : INV d) :
    (lookupA (scanDataOk R d k dat cl).contexts k).map obsOf
      = some (obsStep R (((lookupA d.contexts k).map obsOf).getD obsInit)
          dat cl) := by
  rcases switch_to_stream_spec d k hInv with ⟨_, ⟨ck, hlk, hma, horig⟩, _⟩
  rw [scanDataOk_eq]
  show (lookupA (insertA (switch_to_stream d k).contexts k
      (postScanContext R (switch_to_stream d k).ctx
        ((lookupA (switch_to_stream d k).contexts k).getD StreamContext.new)
        dat cl)) k).map obsOf = _
  rw [lookupA_insertA_self, hlk]
  show some (obsOf (postScanContext R (switch_to_stream d k).ctx ck dat cl)) = _
  rw [postScanContext_congr R dat cl hma, obsOf_pureStep]
  rcases horig with h | ⟨h, hck⟩
  · rw [h]
    rfl
  · rw [h, hck]
    rfl

theorem scanDataOk_lookup_ne (R : CompiledRules) (d : MultiStreamScanner)
    (k : Nat) (dat : Bytes) (cl : Bool) (hInv : INV d) {s : Nat} (hs : s ≠ k) :
    (lookupA (scanDataOk R d k dat cl).contexts s).map obsOf
      = (lookupA d.contexts s).map obsOf := by
  rcases switch_to_stream_spec d k hInv with ⟨_, _, hobs⟩
  rw [scanDataOk_eq]
  show (lookupA (insertA (switch_to_stream d k).contexts k
      (postScanContext R (switch_to_stream d k).ctx
        ((lookupA (switch_to_stream d k).contexts k).getD StreamContext.new)
        dat cl)) s).map obsOf
    = (lookupA d.contexts s).map obsOf
  rw [lookupA_insertA_ne _ _ (fun h => hs h.symm)]
  exact hobs s hs

theorem scanDataOk_active (R : CompiledRules) (d : MultiStreamScanner)
    (k : Nat) (dat : Bytes) (cl : Bool) :
    (scanDataOk R d k dat cl).active_stream
      = (switch_to_stream d k).active_stream := rfl

theorem scanDataOk_INV (R : CompiledRules) (d : MultiStreamScanner) (k : Nat)
    (dat : Bytes) (cl : Bool) (hInv : INV d) :
    INV (scanDataOk R d k dat cl) := by
  rcases switch_to_stream_spec d k hInv with ⟨hact, ⟨ck, hlk, hma, _⟩, _⟩
  intro a ha
  rw [scanDataOk_active, hact] at ha
  have hka : a = k := (Option.some.inj ha).symm
  subst hka
  refine ⟨postScanContext R (switch_to_stream d a).ctx
    ((lookupA (switch_to_stream d a).contexts a).getD StreamContext.new) dat cl,
    ?_, ?_⟩
  · rw [scanDataOk_eq]
    show lookupA (insertA (switch_to_stream d a).contexts a _) a = _
    rw [lookupA_insertA_self]
  · exact ⟨rfl, rfl, rfl, rfl⟩

theorem runOps_INV (R : CompiledRules) (d : MultiStreamScanner)
    (ops : List ScanOp) (hInv : INV d) : INV (runOps R d ops) := by
  induction ops generalizing d with
  | nil => exact hInv
  | cons op rest ih =>
    exact ih _ (scanDataOk_INV R d op.key op.dat op.count_lines hInv)

theorem runOps_lookup (R : CompiledRules) (d : MultiStreamScanner)
    (ops : List ScanOp) (s : Nat) (hInv : INV d) :
    (lookupA (runOps R d ops).contexts s).map obsOf
      = streamRun R ((lookupA d.contexts s).map obsOf) (chunksOf ops s) := by
  induction ops generalizing d with
  | nil => rfl
  | cons op rest ih =>
    have hinv' := scanDataOk_INV R d op.key op.dat op.count_lines hInv
    by_cases hk : op.key = s
    · subst hk
      have h1 := scanDataOk_lookup_self R d op.key op.dat op.count_lines hInv
      calc (lookupA (runOps R (scanDataOk R d op.key op.dat op.count_lines)
              rest).contexts op.key).map obsOf
          = streamRun R ((lookupA (scanDataOk R d op.key op.dat
              op.count_lines).contexts op.key).map obsOf)
              (chunksOf rest op.key) := ih _ hinv'
        _ = streamRun R ((lookupA d.contexts op.key).map obsOf)
              (chunksOf (op :: rest) op.key) := by
              rw [h1]
              have : chunksOf (op :: rest) op.key
                  = (op.dat, op.count_lines) :: chunksOf rest op.key := by
                simp [chunksOf]
              rw [this]
              rfl
    · have h1 := scanDataOk_lookup_ne R d op.key op.dat op.count_lines hInv
        (fun h => hk h.symm)
      have h2 : chunksOf (op :: rest) s = chunksOf rest s := by
        simp [chunksOf, hk]
      rw [runOps, ih _ hinv', h1, h2]

theorem get_matches_eq (d : MultiStreamScanner) (k : Nat) (hInv : INV d) :
    get_matches d k
      = (lookupA d.contexts k).map
          (fun sc => sc.m.non_private_matching_rules) := by
  unfold get_matches
  cases h : lookupA d.contexts k with
  | none => rfl
  | some sc =>
    show some (if d.active_stream = some k
        then d.ctx.non_private_matching_rules
        else sc.m.non_private_matching_rules)
      = Option.map (fun sc => sc.m.non_private_matching_rules) (some sc)
    by_cases hact : d.active_stream = some k
    · rcases hInv k hact with ⟨ca, hla, hma⟩
      rw [h] at hla
      have hcs : ca = sc := (Option.some.inj hla).symm
      subst hcs
      rw [if_pos hact, hma.2.2.1]
      rfl
    · rw [if_neg hact]
      rfl

/-! ## Refinement of the chunked scan against the single-shot scan -/

def obsStepP (R : CompiledRules) (o : StreamObs) (c : Bytes × Bool) : StreamObs :=
  obsStep R o c.1 c.2

theorem streamRun_some (R : CompiledRules) (o : StreamObs)
    (cs : List (Bytes × Bool)) :
    streamRun R (some o) cs = some (cs.foldl (obsStepP R) o) := by
  induction cs generalizing o with
  | nil => rfl
  | cons c rest ih =>
    show streamRun R (some (obsStep R o c.1 c.2)) rest = _
    rw [ih, List.foldl_cons]
    rfl

theorem streamRun_none_cons (R : CompiledRules) (c : Bytes × Bool)
    (rest : List (Bytes × Bool)) :
    streamRun R none (c :: rest)
      = some ((c :: rest).foldl (obsStepP R) obsInit) := by
  show streamRun R (some (obsStep R obsInit c.1 c.2)) rest = _
  rw [streamRun_some, List.foldl_cons]
  rfl

theorem searchChunk_fst (R : CompiledRules) (store : Store) (lr : Nat → Bool)
    (dat : Bytes) (offset : Nat) :
    (searchChunk R store lr dat offset).1 = fun pid =>
      if pid < R.patterns.length ∧ lr pid = false then
        capAdd R.max_matches_per_pattern (store pid)
          ((occurrencesIn (R.patterns.getD pid []) dat).map (· + offset))
      else store pid := rfl

theorem searchChunk_snd (R : CompiledRules) (store : Store) (lr : Nat → Bool)
    (dat : Bytes) (offset : Nat) :
    (searchChunk R store lr dat offset).2 = fun pid =>
      lr pid || (decide (pid < R.patterns.length)
        && decide (R.max_matches_per_pattern
          ≤ ((searchChunk R store lr dat offset).1 pid).length)) := rfl

theorem capAdd_take (cap : Nat) (a b : List Nat) :
    capAdd cap (a.take cap) b = (a ++ b).take cap := by
  unfold capAdd
  rw [List.take_append_eq_append_take]
  have h : cap - (a.take cap).length = cap - a.length := by
    simp only [List.length_take]
    omega
  rw [h]

theorem occurrencesIn_nil {p : Bytes} (hp : p ≠ []) :
    occurrencesIn p [] = [] := by
  have h0 : isAt p [] 0 = false := by
    unfold isAt
    have : p.length ≠ 0 := fun h => hp (List.eq_nil_of_length_eq_zero h)
    simp [this]
  show (List.range 1).filter (fun i => isAt p [] i) = []
  have h1 : List.range 1 = [0] := rfl
  rw [h1]
  simp [h0]

/-- Limit-reached consistency: a pattern marked as limit-reached has a full
match list. -/
def lrOK (R : CompiledRules) (store : Store) (lr : Nat → Bool) : Prop :=
  ∀ pid, lr pid = true → R.max_matches_per_pattern ≤ (store pid).length

theorem searchChunk_grows (R : CompiledRules) (store : Store) (lr : Nat → Bool)
    (dat : Bytes) (offset : Nat) (pid : Nat) :
    ∃ t, store pid ++ t = (searchChunk R store lr dat offset).1 pid := by
  simp only [searchChunk_fst]
  by_cases h : pid < R.patterns.length ∧ lr pid = false
  · rw [if_pos h]
    exact ⟨_, rfl⟩
  · rw [if_neg h]
    exact ⟨[], List.append_nil _⟩

theorem searchChunk_lrOK (R : CompiledRules) (store : Store) (lr : Nat → Bool)
    (dat : Bytes) (offset : Nat) (h : lrOK R store lr) :
    lrOK R (searchChunk R store lr dat offset).1
      (searchChunk R store lr dat offset).2 := by
  intro pid hpid
  rw [searchChunk_snd] at hpid
  simp only [Bool.or_eq_true, Bool.and_eq_true, decide_eq_true_eq] at hpid
  rcases hpid with hlr | ⟨_, hle⟩
  · simp only [searchChunk_fst]
    have hno : ¬ (pid < R.patterns.length ∧ lr pid = false) := by
      intro hcon
      rw [hlr] at hcon
      exact absurd hcon.2 (by simp)
    rw [if_neg hno]
    exact h pid hlr
  · exact hle

/-- The no-boundary-crossing condition for all patterns along a chunk
sequence, starting from already-consumed data `acc`. -/
def noCrossing (R : CompiledRules) : Bytes → List Bytes → Bool
  | _, [] => true
  | acc, c :: rest =>
    R.patterns.all (fun p => splitOK p acc c) && noCrossing R (acc ++ c) rest

/-- One search step preserves the single-shot store characterization. -/
theorem searchChunk_store_char (R : CompiledRules) {acc c : Bytes}
    {lr : Nat → Bool} (hp : ∀ p ∈ R.patterns, p ≠ [])
    (hsplit : ∀ p ∈ R.patterns, splitOK p acc c = true)
    (hlr : lrOK R (ssStore R acc) lr) :
    (searchChunk R (ssStore R acc) lr c acc.length).1 = ssStore R (acc ++ c) := by
  funext pid
  simp only [searchChunk_fst]
  by_cases hpid : pid < R.patterns.length
  · have hmem : R.patterns.getD pid [] ∈ R.patterns := by
      rw [List.getD_eq_getElem R.patterns [] hpid]
      exact List.getElem_mem _
    have hocc : occurrencesIn (R.patterns.getD pid []) (acc ++ c)
        = occurrencesIn (R.patterns.getD pid []) acc
          ++ (occurrencesIn (R.patterns.getD pid []) c).map (· + acc.length) :=
      occurrencesIn_append (hp _ hmem) (hsplit _ hmem)
    have hstore : ssStore R acc pid
        = (occurrencesIn (R.patterns.getD pid []) acc).take
            R.max_matches_per_pattern := by
      unfold ssStore
      rw [if_pos hpid]
    have hstore' : ssStore R (acc ++ c) pid
        = (occurrencesIn (R.patterns.getD pid []) (acc ++ c)).take
            R.max_matches_per_pattern := by
      unfold ssStore
      rw [if_pos hpid]
    by_cases hl : lr pid = false
    · rw [if_pos ⟨hpid, hl⟩, hstore, hstore', capAdd_take, hocc]
    · have hltrue : lr pid = true := by
        cases h : lr pid
        · exact absurd h hl
        · rfl
      rw [if_neg (by intro hcon; exact hl hcon.2)]
      have hfull : R.max_matches_per_pattern
          ≤ (occurrencesIn (R.patterns.getD pid []) acc).length := by
        have := hlr pid hltrue
        rw [hstore] at this
        simp only [List.length_take] at this
        omega
      rw [hstore, hstore', hocc,
        List.take_append_of_le_length hfull]
  · rw [if_neg (by intro hcon; exact hpid hcon.1)]
    unfold ssStore
    rw [if_neg hpid, if_neg hpid]

/-- Fold-level store characterization: starting from the post-`acc` state,
folding the scan step over chunks with no boundary crossings produces
exactly the single-shot store of the concatenation, with consistent
counters and limit flags. -/
theorem storeInv_fold (R : CompiledRules) (chunks : List (Bytes × Bool))
    (acc : Bytes) (o : StreamObs) (hp : ∀ p ∈ R.patterns, p ≠ [])
    (hb : o.total_bytes_processed = acc.length)
    (hs : o.pattern_matches = ssStore R acc)
    (hlr : lrOK R o.pattern_matches o.limit_reached)
    (hcross : noCrossing R acc (chunks.map Prod.fst) = true) :
    (chunks.foldl (obsStepP R) o).total_bytes_processed
        = (acc ++ flat (chunks.map Prod.fst)).length ∧
    (chunks.foldl (obsStepP R) o).pattern_matches
        = ssStore R (acc ++ flat (chunks.map Prod.fst)) ∧
    lrOK R (chunks.foldl (obsStepP R) o).pattern_matches
      (chunks.foldl (obsStepP R) o).limit_reached := by
  induction chunks generalizing acc o with
  | nil =>
    have h0 : flat ((List.nil (α := Bytes × Bool)).map Prod.fst) = [] := rfl
    rw [h0, List.append_nil]
    exact ⟨hb, hs, hlr⟩
  | cons c rest ih =>
    have hcross' : (R.patterns.all (fun p => splitOK p acc c.1) = true)
        ∧ noCrossing R (acc ++ c.1) (rest.map Prod.fst) = true := by
      have h2 : noCrossing R acc (c.1 :: rest.map Prod.fst) = true := hcross
      rw [noCrossing, Bool.and_eq_true] at h2
      exact h2
    have hsplit : ∀ p ∈ R.patterns, splitOK p acc c.1 = true :=
      fun p hmem => List.all_eq_true.mp hcross'.1 p hmem
    have hb1 : (obsStepP R o c).total_bytes_processed = (acc ++ c.1).length := by
      show o.total_bytes_processed + c.1.length = _
      rw [hb, List.length_append]
    have hs1 : (obsStepP R o c).pattern_matches = ssStore R (acc ++ c.1) := by
      show (searchChunk R o.pattern_matches o.limit_reached c.1
        o.total_bytes_processed).1 = _
      rw [hb, hs]
      exact searchChunk_store_char R hp hsplit (hs ▸ hlr)
    have hlr1 : lrOK R (obsStepP R o c).pattern_matches
        (obsStepP R o c).limit_reached := by
      show lrOK R (searchChunk R o.pattern_matches o.limit_reached c.1
          o.total_bytes_processed).1
        (searchChunk R o.pattern_matches o.limit_reached c.1
          o.total_bytes_processed).2
      exact searchChunk_lrOK R _ _ _ _ hlr
    have := ih (acc ++ c.1) (obsStepP R o c) hb1 hs1 hlr1 hcross'.2
    rw [List.foldl_cons]
    have hflat : acc ++ flat ((c :: rest).map Prod.fst)
        = (acc ++ c.1) ++ flat (rest.map Prod.fst) := by
      show acc ++ (c.1 ++ flat (rest.map Prod.fst)) = _
      rw [List.append_assoc]
    rw [hflat]
    exact this

/-! ## The drain loop: membership, monotonicity, duplicate-freedom -/

theorem drainPending_cons (R : CompiledRules) (np pr : List Nat) (x : Nat)
    (xs : List Nat) :
    drainPending R np pr (x :: xs)
      = drainPending R (drainStep R (np, pr) x).1 (drainStep R (np, pr) x).2
          xs := rfl

theorem drainStep_cases (R : CompiledRules) (np pr : List Nat) (x : Nat) :
    (rulePriv R x = true ∧ x ∈ pr ∧ drainStep R (np, pr) x = (np, pr)) ∨
    (rulePriv R x = true ∧ x ∉ pr ∧ drainStep R (np, pr) x = (np, pr ++ [x])) ∨
    (rulePriv R x = false ∧ x ∈ np ∧ drainStep R (np, pr) x = (np, pr)) ∨
    (rulePriv R x = false ∧ x ∉ np ∧ drainStep R (np, pr) x = (np ++ [x], pr)) := by
  by_cases hpx : rulePriv R x
  · by_cases hmem : x ∈ pr
    · exact Or.inl ⟨hpx, hmem, by simp [drainStep, hpx, hmem]⟩
    · exact Or.inr (Or.inl ⟨hpx, hmem, by simp [drainStep, hpx, hmem]⟩)
  · have hpx' : rulePriv R x = false := by
      cases h : rulePriv R x
      · rfl
      · exact absurd h hpx
    by_cases hmem : x ∈ np
    · exact Or.inr (Or.inr (Or.inl ⟨hpx', hmem,
        by simp [drainStep, hpx', hmem]⟩))
    · exact Or.inr (Or.inr (Or.inr ⟨hpx', hmem,
        by simp [drainStep, hpx', hmem]⟩))

theorem drainPending_fst_mem (R : CompiledRules) (np pr pending : List Nat)
    (r : Nat) :
    r ∈ (drainPending R np pr pending).1
      ↔ r ∈ np ∨ (r ∈ pending ∧ rulePriv R r = false) := by
  induction pending generalizing np pr with
  | nil => simp [drainPending]
  | cons x xs ih =>
    rw [drainPending_cons]
    rcases drainStep_cases R np pr x with
      ⟨hpx, _, heq⟩ | ⟨hpx, _, heq⟩ | ⟨hpx, hmem, heq⟩ | ⟨hpx, hmem, heq⟩ <;>
      rw [heq] <;> rw [ih] <;> simp only [List.mem_cons, List.mem_append,
        List.mem_singleton, List.not_mem_nil, or_false]
    · constructor
      · rintro (h | ⟨h, hpriv⟩)
        · exact Or.inl h
        · exact Or.inr ⟨Or.inr h, hpriv⟩
      · rintro (h | ⟨h | h, hpriv⟩)
        · exact Or.inl h
        · subst h
          rw [hpx] at hpriv
          cases hpriv
        · exact Or.inr ⟨h, hpriv⟩
    · constructor
      · rintro (h | ⟨h, hpriv⟩)
        · exact Or.inl h
        · exact Or.inr ⟨Or.inr h, hpriv⟩
      · rintro (h | ⟨h | h, hpriv⟩)
        · exact Or.inl h
        · subst h
          rw [hpx] at hpriv
          cases hpriv
        · exact Or.inr ⟨h, hpriv⟩
    · constructor
      · rintro (h | ⟨h, hpriv⟩)
        · exact Or.inl h
        · exact Or.inr ⟨Or.inr h, hpriv⟩
      · rintro (h | ⟨h | h, hpriv⟩)
        · exact Or.inl h
        · subst h
          exact Or.inl hmem
        · exact Or.inr ⟨h, hpriv⟩
    · constructor
      · rintro (⟨h | h⟩ | ⟨h, hpriv⟩)
        · exact Or.inl h
        · exact Or.inr ⟨Or.inl h, h ▸ hpx⟩
        · exact Or.inr ⟨Or.inr h, hpriv⟩
      · rintro (h | ⟨h | h, hpriv⟩)
        · exact Or.inl (Or.inl h)
        · exact Or.inl (Or.inr h)
        · exact Or.inr ⟨h, hpriv⟩

theorem drainPending_snd_mem (R : CompiledRules) (np pr pending : List Nat)
    (r : Nat) :
    r ∈ (drainPending R np pr pending).2
      ↔ r ∈ pr ∨ (r ∈ pending ∧ rulePriv R r = true) := by
  induction pending generalizing np pr with
  | nil => simp [drainPending]
  | cons x xs ih =>
    rw [drainPending_cons]
    rcases drainStep_cases R np pr x with
      ⟨hpx, hmem, heq⟩ | ⟨hpx, hmem, heq⟩ | ⟨hpx, _, heq⟩ | ⟨hpx, _, heq⟩ <;>
      rw [heq] <;> rw [ih] <;> simp only [List.mem_cons, List.mem_append,
        List.mem_singleton, List.not_mem_nil, or_false]
    · constructor
      · rintro (h | ⟨h, hpriv⟩)
        · exact Or.inl h
        · exact Or.inr ⟨Or.inr h, hpriv⟩
      · rintro (h | ⟨h | h, hpriv⟩)
        · exact Or.inl h
        · subst h
          exact Or.inl hmem
        · exact Or.inr ⟨h, hpriv⟩
    · constructor
      · rintro (⟨h | h⟩ | ⟨h, hpriv⟩)
        · exact Or.inl h
        · exact Or.inr ⟨Or.inl h, h ▸ hpx⟩
        · exact Or.inr ⟨Or.inr h, hpriv⟩
      · rintro (h | ⟨h | h, hpriv⟩)
        · exact Or.inl (Or.inl h)
        · exact Or.inl (Or.inr h)
        · exact Or.inr ⟨h, hpriv⟩
    · constructor
      · rintro (h | ⟨h, hpriv⟩)
        · exact Or.inl h
        · exact Or.inr ⟨Or.inr h, hpriv⟩
      · rintro (h | ⟨h | h, hpriv⟩)
        · exact Or.inl h
        · subst h
          rw [hpx] at hpriv
          cases hpriv
        · exact Or.inr ⟨h, hpriv⟩
    · constructor
      · rintro (h | ⟨h, hpriv⟩)
        · exact Or.inl h
        · exact Or.inr ⟨Or.inr h, hpriv⟩
      · rintro (h | ⟨h | h, hpriv⟩)
        · exact Or.inl h
        · subst h
          rw [hpx] at hpriv
          cases hpriv
        · exact Or.inr ⟨h, hpriv⟩

theorem drainPending_grows (R : CompiledRules) (np pr pending : List Nat) :
    (∃ t, np ++ t = (drainPending R np pr pending).1) ∧
    (∃ u, pr ++ u = (drainPending R np pr pending).2) := by
  induction pending generalizing np pr with
  | nil => exact ⟨⟨[], List.append_nil _⟩, ⟨[], List.append_nil _⟩⟩
  | cons x xs ih =>
    rw [drainPending_cons]
    rcases drainStep_cases R np pr x with
      ⟨_, _, heq⟩ | ⟨_, _, heq⟩ | ⟨_, _, heq⟩ | ⟨_, _, heq⟩ <;> rw [heq]
    · exact ih np pr
    · rcases ih np (pr ++ [x]) with ⟨h1, ⟨u, hu⟩⟩
      exact ⟨h1, ⟨[x] ++ u, by rw [← List.append_assoc]; exact hu⟩⟩
    · exact ih np pr
    · rcases ih (np ++ [x]) pr with ⟨⟨t, ht⟩, h2⟩
      exact ⟨⟨[x] ++ t, by rw [← List.append_assoc]; exact ht⟩, h2⟩

/-- Well-formedness of the two cumulative match lists: duplicate-free and
privacy-sorted (which in particular makes them disjoint). -/
def NDW (R : CompiledRules) (np pr : List Nat) : Prop :=
  np.Nodup ∧ pr.Nodup ∧ (∀ r ∈ np, rulePriv R r = false) ∧
    (∀ r ∈ pr, rulePriv R r = true)

theorem NDW_disjoint {R : CompiledRules} {np pr : List Nat}
    (h : NDW R np pr) : ∀ r ∈ np, r ∉ pr := by
  intro r hnp hpr
  have h1 := h.2.2.1 r hnp
  have h2 := h.2.2.2 r hpr
  rw [h1] at h2
  cases h2

theorem drainPending_NDW (R : CompiledRules) (np pr pending : List Nat)
    (h : NDW R np pr) :
    NDW R (drainPending R np pr pending).1 (drainPending R np pr pending).2 := by
  induction pending generalizing np pr with
  | nil => exact h
  | cons x xs ih =>
    rw [drainPending_cons]
    rcases drainStep_cases R np pr x with
      ⟨_, _, heq⟩ | ⟨hpx, hmem, heq⟩ | ⟨_, _, heq⟩ | ⟨hpx, hmem, heq⟩ <;> rw [heq]
    · exact ih np pr h
    · refine ih np (pr ++ [x]) ⟨h.1, ?_, h.2.2.1, ?_⟩
      · rw [List.nodup_append]
        exact ⟨h.2.1, List.nodup_singleton x, by simpa using hmem⟩
      · intro r hr
        rcases List.mem_append.mp hr with hr | hr
        · exact h.2.2.2 r hr
        · rw [List.mem_singleton.mp hr]
          exact hpx
    · exact ih np pr h
    · refine ih (np ++ [x]) pr ⟨?_, h.2.1, ?_, h.2.2.2⟩
      · rw [List.nodup_append]
        exact ⟨h.1, List.nodup_singleton x, by simpa using hmem⟩
      · intro r hr
        rcases List.mem_append.mp hr with hr | hr
        · exact h.2.2.1 r hr
        · rw [List.mem_singleton.mp hr]
          exact hpx

theorem firedRules_mem (R : CompiledRules) (store : Store) (r : Nat) :
    r ∈ firedRules R store ↔ r < R.num_rules ∧ R.cond r store = true := by
  unfold firedRules
  rw [List.mem_filter, List.mem_range]

/-! ## Monotone conditions and accumulation of fired rules -/

/-- Store extension order: every pattern's match list is extended. -/
def storeLE (s t : Store) : Prop := ∀ pid, ∃ u, s pid ++ u = t pid

theorem storeLE_refl (s : Store) : storeLE s s :=
  fun _ => ⟨[], List.append_nil _⟩

theorem storeLE_trans {s t w : Store} (h1 : storeLE s t) (h2 : storeLE t w) :
    storeLE s w := by
  intro pid
  rcases h1 pid with ⟨u, hu⟩
  rcases h2 pid with ⟨v, hv⟩
  exact ⟨u ++ v, by rw [← List.append_assoc, hu, hv]⟩

/-- Modelled from the spec: a rule condition is monotone when extending the
match store can only turn it from false to true (never retract it). -/
def MonotoneConds (R : CompiledRules) : Prop :=
  ∀ r s t, storeLE s t → R.cond r s = true → R.cond r t = true

theorem obsStep_storeLE (R : CompiledRules) (o : StreamObs) (c : Bytes × Bool) :
    storeLE o.pattern_matches (obsStepP R o c).pattern_matches := by
  intro pid
  exact searchChunk_grows R o.pattern_matches o.limit_reached c.1
    o.total_bytes_processed pid

/-- The characterization of the non-private match list after at least one
scan: exactly the non-private rules whose condition holds on the current
cumulative store. -/
def InvNp (R : CompiledRules) (o : StreamObs) : Prop :=
  ∀ r, r ∈ o.non_private_matching_rules ↔
    (r < R.num_rules ∧ rulePriv R r = false ∧
      R.cond r o.pattern_matches = true)

theorem obsStep_np (R : CompiledRules) (o : StreamObs) (c : Bytes × Bool) :
    (obsStepP R o c).non_private_matching_rules
      = (drainPending R o.non_private_matching_rules o.private_matching_rules
          (firedRules R (obsStepP R o c).pattern_matches)).1 := rfl

theorem InvNp_step (R : CompiledRules) (o : StreamObs) (c : Bytes × Bool)
    (hm : MonotoneConds R) (h : InvNp R o) : InvNp R (obsStepP R o c) := by
  intro r
  rw [obsStep_np, drainPending_fst_mem, firedRules_mem]
  constructor
  · rintro (hr | ⟨⟨hlt, hcond⟩, hpriv⟩)
    · rcases (h r).mp hr with ⟨hlt, hpriv, hcond⟩
      exact ⟨hlt, hpriv, hm r _ _ (obsStep_storeLE R o c) hcond⟩
    · exact ⟨hlt, hpriv, hcond⟩
  · rintro ⟨hlt, hpriv, hcond⟩
    exact Or.inr ⟨⟨hlt, hcond⟩, hpriv⟩

theorem InvNp_base (R : CompiledRules) (o : StreamObs) (c : Bytes × Bool)
    (hnp : o.non_private_matching_rules = [])
    (hpr : o.private_matching_rules = []) : InvNp R (obsStepP R o c) := by
  intro r
  rw [obsStep_np, hnp, hpr, drainPending_fst_mem, firedRules_mem]
  constructor
  · rintro (hr | ⟨⟨hlt, hcond⟩, hpriv⟩)
    · cases hr
    · exact ⟨hlt, hpriv, hcond⟩
  · rintro ⟨hlt, hpriv, hcond⟩
    exact Or.inr ⟨⟨hlt, hcond⟩, hpriv⟩

theorem InvNp_fold (R : CompiledRules) (o : StreamObs)
    (cs : List (Bytes × Bool)) (hm : MonotoneConds R) (h : InvNp R o) :
    InvNp R (cs.foldl (obsStepP R) o) := by
  induction cs generalizing o with
  | nil => exact h
  | cons c rest ih =>
    rw [List.foldl_cons]
    exact ih _ (InvNp_step R o c hm h)

theorem scanSingleShot_fst_mem (R : CompiledRules) (dat : Bytes) (r : Nat) :
    r ∈ (scanSingleShot R dat).1
      ↔ (r < R.num_rules ∧ rulePriv R r = false ∧
          R.cond r (ssStore R dat) = true) := by
  unfold scanSingleShot
  rw [List.mem_filter, firedRules_mem]
  constructor
  · rintro ⟨⟨hlt, hcond⟩, hpriv⟩
    exact ⟨hlt, by simpa using hpriv, hcond⟩
  · rintro ⟨hlt, hpriv, hcond⟩
    exact ⟨⟨hlt, hcond⟩, by simpa using hpriv⟩

/-! ## Counter lemmas -/

theorem lines_processed_scan (R : CompiledRules) (d : MultiStreamScanner)
    (k : Nat) (dat : Bytes) (cl : Bool) (hInv : INV d) :
    lines_processed (scanDataOk R d k dat cl) k
      = some ((lines_processed d k).getD 0
          + (if cl then chunkLineCount dat else 1)) := by
  have h := scanDataOk_lookup_self R d k dat cl hInv
  unfold lines_processed
  have hx : (lookupA (scanDataOk R d k dat cl).contexts k).map
        (fun sc => sc.line_count)
      = ((lookupA (scanDataOk R d k dat cl).contexts k).map obsOf).map
          (fun o => o.line_count) := by
    rw [Option.map_map]
    rfl
  rw [hx, h]
  cases hl : lookupA d.contexts k with
  | none => rfl
  | some sc => rfl

theorem bytes_processed_scan (R : CompiledRules) (d : MultiStreamScanner)
    (k : Nat) (dat : Bytes) (cl : Bool) (hInv : INV d) :
    bytes_processed (scanDataOk R d k dat cl) k
      = some ((bytes_processed d k).getD 0 + dat.length) := by
  have h := scanDataOk_lookup_self R d k dat cl hInv
  unfold bytes_processed
  have hx : (lookupA (scanDataOk R d k dat cl).contexts k).map
        (fun sc => sc.total_bytes_processed)
      = ((lookupA (scanDataOk R d k dat cl).contexts k).map obsOf).map
          (fun o => o.total_bytes_processed) := by
    rw [Option.map_map]
    rfl
  rw [hx, h]
  cases hl : lookupA d.contexts k with
  | none => rfl
  | some sc => rfl

theorem foldl_bytes (R : CompiledRules) (o : StreamObs)
    (cs : List (Bytes × Bool)) :
    (cs.foldl (obsStepP R) o).total_bytes_processed
      = o.total_bytes_processed + (cs.map (fun c => c.1.length)).sum := by
  induction cs generalizing o with
  | nil => simp
  | cons c rest ih =>
    rw [List.foldl_cons, ih]
    show o.total_bytes_processed + c.1.length + _ = _
    simp only [List.map_cons, List.sum_cons]
    omega

/-! ## Counters are untouched by stream switching and error returns -/

theorem switch_counters (d : MultiStreamScanner) (k s : Nat)
    {sc : StreamContext} (h : lookupA d.contexts s = some sc) :
    ∃ sc', lookupA (switch_to_stream d k).contexts s = some sc' ∧
      sc'.total_bytes_processed = sc.total_bytes_processed ∧
      sc'.line_count = sc.line_count := by
  by_cases hak : d.active_stream = some k
  · rw [switch_eq_active hak]
    exact ⟨sc, h, rfl, rfl⟩
  · have hsave : ∀ (j : Nat) (cj : StreamContext),
        lookupA (insertA d.contexts j (cj.save_from_scanner d.ctx)) s
            = some (if s = j then cj.save_from_scanner d.ctx else sc) ∧
        (lookupA d.contexts j = some cj → (if s = j then cj.save_from_scanner
            d.ctx else sc).total_bytes_processed = sc.total_bytes_processed ∧
          (if s = j then cj.save_from_scanner d.ctx
            else sc).line_count = sc.line_count) := by
      intro j cj
      by_cases hsj : s = j
      · subst hsj
        rw [if_pos rfl]
        refine ⟨lookupA_insertA_self _ _ _, ?_⟩
        intro hj
        rw [hj] at h
        have : cj = sc := Option.some.inj h
        subst this
        exact ⟨rfl, rfl⟩
      · rw [if_neg hsj]
        exact ⟨by rw [lookupA_insertA_ne _ _ (fun hh => hsj hh.symm)]; exact h,
          fun _ => ⟨rfl, rfl⟩⟩
    cases ha : d.active_stream with
    | none =>
      cases hk : lookupA d.contexts k with
      | some ck =>
        rw [switch_eq_idle_found ha hk]
        exact ⟨sc, h, rfl, rfl⟩
      | none =>
        rw [switch_eq_idle_fresh ha hk]
        have hsk : s ≠ k := by
          intro hh
          rw [hh] at h
          rw [h] at hk
          cases hk
        refine ⟨sc, ?_, rfl, rfl⟩
        show lookupA (insertA d.contexts k StreamContext.new) s = some sc
        rw [lookupA_insertA_ne _ _ (fun hh => hsk hh.symm)]
        exact h
    | some j =>
      have hjk : j ≠ k := by
        intro hh
        rw [hh] at ha
        exact hak ha
      cases hj : lookupA d.contexts j with
      | none =>
        -- the active stream has no saved context: nothing is saved
        cases hk : lookupA (d.contexts) k with
        | some ck =>
          have : switch_to_stream d k
              = { d with ctx := ck.m, contexts := d.contexts,
                         active_stream := some k } := by
            unfold switch_to_stream
            rw [if_neg hak]
            simp only [ha, hj, hk, StreamContext.restore_to_scanner]
          rw [this]
          exact ⟨sc, h, rfl, rfl⟩
        | none =>
          have : switch_to_stream d k
              = { d with ctx := MatchState.init,
                         contexts := insertA d.contexts k StreamContext.new,
                         active_stream := some k } := by
            unfold switch_to_stream
            rw [if_neg hak]
            simp only [ha, hj, hk, StreamContext.restore_to_scanner,
              StreamContext.new]
          rw [this]
          have hsk : s ≠ k := by
            intro hh
            rw [hh] at h
            rw [h] at hk
            cases hk
          refine ⟨sc, ?_, rfl, rfl⟩
          show lookupA (insertA d.contexts k StreamContext.new) s = some sc
          rw [lookupA_insertA_ne _ _ (fun hh => hsk hh.symm)]
          exact h
      | some cj =>
        rcases hsave j cj with ⟨hls, hcnt⟩
        rcases hcnt hj with ⟨hb, hc⟩
        cases hk : lookupA d.contexts k with
        | some ck =>
          rw [switch_eq_busy_found ha hjk hj hk]
          exact ⟨_, hls, hb, hc⟩
        | none =>
          rw [switch_eq_busy_fresh ha hjk hj hk]
          have hsk : s ≠ k := by
            intro hh
            rw [hh] at h
            rw [h] at hk
            cases hk
          refine ⟨_, ?_, hb, hc⟩
          show lookupA (insertA (insertA d.contexts j
            (cj.save_from_scanner d.ctx)) k StreamContext.new) s = _
          rw [lookupA_insertA_ne _ _ (fun hh => hsk hh.symm)]
          exact hls

theorem scanData_err_state (R : CompiledRules) (e : ScanErr)
    (d : MultiStreamScanner) (k : Nat) (dat : Bytes) (cl : Bool) :
    (scanData R (some e) d k dat cl).1.contexts
        = (switch_to_stream d k).contexts ∧
    (scanData R (some e) d k dat cl).2 = some e := by
  cases e with
  | moduleError => exact ⟨rfl, rfl⟩
  | timeout => exact ⟨rfl, rfl⟩

/-! ## Equations for close_stream and reset_stream -/

theorem close_eq_inactive_found {d : MultiStreamScanner} {s : Nat}
    {c : StreamContext} (hact : ¬ d.active_stream = some s)
    (hl : lookupA d.contexts s = some c) :
    close_stream d s
      = (some { non_private_matching_rules := c.m.non_private_matching_rules
                bytes_processed := c.total_bytes_processed
                lines_processed := c.line_count },
         { d with contexts := removeA d.contexts s }) := by
  unfold close_stream
  rw [if_neg hact]
  simp only [hl]

theorem close_eq_inactive_missing {d : MultiStreamScanner} {s : Nat}
    (hact : ¬ d.active_stream = some s)
    (hl : lookupA d.contexts s = none) :
    close_stream d s = (none, d) := by
  unfold close_stream
  rw [if_neg hact]
  simp only [hl]

theorem close_eq_active {d : MultiStreamScanner} {s : Nat}
    {c : StreamContext} (hact : d.active_stream = some s)
    (hl : lookupA d.contexts s = some c) :
    close_stream d s
      = (some { non_private_matching_rules := d.ctx.non_private_matching_rules
                bytes_processed := c.total_bytes_processed
                lines_processed := c.line_count },
         { d with
             contexts := removeA
               (insertA d.contexts s (c.save_from_scanner d.ctx)) s,
             active_stream := none }) := by
  unfold close_stream
  rw [if_pos hact]
  simp only [hl, lookupA_insertA_self]
  rfl

theorem close_INV (d : MultiStreamScanner) (s : Nat) (hInv : INV d) :
    INV (close_stream d s).2 := by
  by_cases hact : d.active_stream = some s
  · rcases hInv s hact with ⟨ca, hla, _⟩
    rw [close_eq_active hact hla]
    intro a ha
    cases ha
  · cases hl : lookupA d.contexts s with
    | some c =>
      rw [close_eq_inactive_found hact hl]
      intro a ha
      have has : a ≠ s := by
        intro hh
        rw [hh] at ha
        exact hact ha
      rcases hInv a ha with ⟨ca, hla, hma⟩
      refine ⟨ca, ?_, hma⟩
      show lookupA (removeA d.contexts s) a = some ca
      rw [lookupA_removeA_ne _ (fun hh => has hh.symm)]
      exact hla
    | none =>
      rw [close_eq_inactive_missing hact hl]
      exact hInv

theorem reset_eq_found_active {d : MultiStreamScanner} {s : Nat}
    {sc : StreamContext} (hl : lookupA d.contexts s = some sc)
    (hact : d.active_stream = some s) :
    reset_stream d s
      = { d with contexts := insertA d.contexts s StreamContext.new,
                 ctx := MatchState.init } := by
  unfold reset_stream
  simp only [hl, hact, if_pos]
  rfl

theorem reset_eq_found_inactive {d : MultiStreamScanner} {s : Nat}
    {sc : StreamContext} (hl : lookupA d.contexts s = some sc)
    (hact : ¬ d.active_stream = some s) :
    reset_stream d s
      = { d with contexts := insertA d.contexts s StreamContext.new } := by
  unfold reset_stream
  simp only [hl, hact, if_neg]
  simp

theorem reset_eq_missing {d : MultiStreamScanner} {s : Nat}
    (hl : lookupA d.contexts s = none) :
    reset_stream d s = d := by
  unfold reset_stream
  simp only [hl]

/-! ## Well-formedness of the cumulative rule lists across scans -/

/-- Every saved stream context has duplicate-free, privacy-sorted match
lists. -/
def WFn (R : CompiledRules) (d : MultiStreamScanner) : Prop :=
  ∀ s sc, lookupA d.contexts s = some sc →
    NDW R sc.m.non_private_matching_rules sc.m.private_matching_rules

theorem WFn_new (R : CompiledRules) : WFn R MultiStreamScanner.new := by
  intro s sc h
  cases h

theorem NDW_nil (R : CompiledRules) : NDW R [] [] :=
  ⟨List.nodup_nil, List.nodup_nil, fun r hr => absurd hr (List.not_mem_nil r),
    fun r hr => absurd hr (List.not_mem_nil r)⟩

theorem obsOf_eq_np {sc sc' : StreamContext} (h : obsOf sc = obsOf sc') :
    sc.m.non_private_matching_rules = sc'.m.non_private_matching_rules := by
  have := congrArg StreamObs.non_private_matching_rules h
  exact this

theorem obsOf_eq_pr {sc sc' : StreamContext} (h : obsOf sc = obsOf sc') :
    sc.m.private_matching_rules = sc'.m.private_matching_rules := by
  have := congrArg StreamObs.private_matching_rules h
  exact this

theorem scanDataOk_WFn (R : CompiledRules) (d : MultiStreamScanner) (k : Nat)
    (dat : Bytes) (cl : Bool) (hInv : INV d) (hw : WFn R d) :
    WFn R (scanDataOk R d k dat cl) := by
  intro s sc hl
  by_cases hsk : s = k
  · subst hsk
    have h := scanDataOk_lookup_self R d s dat cl hInv
    rw [hl] at h
    have hobs : obsOf sc
        = obsStep R (((lookupA d.contexts s).map obsOf).getD obsInit) dat cl :=
      Option.some.inj h
    have hnp := congrArg StreamObs.non_private_matching_rules hobs
    have hpr := congrArg StreamObs.private_matching_rules hobs
    have hbase : NDW R
        (((lookupA d.contexts s).map obsOf).getD
          obsInit).non_private_matching_rules
        (((lookupA d.contexts s).map obsOf).getD
          obsInit).private_matching_rules := by
      cases h0 : lookupA d.contexts s with
      | none => exact NDW_nil R
      | some sc0 => exact hw s sc0 h0
    rw [show StreamObs.non_private_matching_rules (obsOf sc)
        = sc.m.non_private_matching_rules from rfl] at hnp
    rw [show StreamObs.private_matching_rules (obsOf sc)
        = sc.m.private_matching_rules from rfl] at hpr
    rw [hnp, hpr]
    exact drainPending_NDW R _ _ _ hbase
  · have h := scanDataOk_lookup_ne R d k dat cl hInv hsk
    rw [hl] at h
    cases h0 : lookupA d.contexts s with
    | none =>
      rw [h0] at h
      cases h
    | some sc0 =>
      rw [h0] at h
      have hobs : obsOf sc = obsOf sc0 := Option.some.inj h
      rw [obsOf_eq_np hobs, obsOf_eq_pr hobs]
      exact hw s sc0 h0

/-! ## Timeout subsystem (multi_stream.rs lines 352-368, 405-411)

The user-supplied timeout is converted with `timeout.as_secs_f32().ceil()
as u64`.  The model restricts user timeouts to whole seconds, for which
`as_secs_f32` is the conversion of the second count to the nearest `f32`
(24-bit significand, round half to even) and `ceil` is the identity. -/

/-- Structural bit-length helper (first argument is fuel). -/
def bitLenAux : Nat → Nat → Nat
  | 0, _ => 0
  | fuel + 1, n => if n = 0 then 0 else bitLenAux fuel (n / 2) + 1

/-- Number of binary digits of `n`. -/
def bitLen (n : Nat) : Nat := bitLenAux n n

/-- Round `n` to a multiple of `u`, half to even (in units of `u`). -/
def roundToUnit (u n : Nat) : Nat :=
  if 2 * (n % u) < u then (n / u) * u
  else if u < 2 * (n % u) then (n / u + 1) * u
  else if (n / u) % 2 = 0 then (n / u) * u else (n / u + 1) * u

/-- The value of `n as f32` (round to nearest even, 24-bit significand),
as a natural number; exact for every `u64` value. -/
def roundF32Nat (n : Nat) : Nat :=
  if n ≤ 2 ^ 24 then n else roundToUnit (2 ^ (bitLen n - 24)) n

example : roundF32Nat 16777216 = 16777216 := by decide

example : roundF32Nat 16777217 = 16777216 := by decide

example : roundF32Nat 16777219 = 16777220 := by decide

/-- multi_stream.rs lines 353-360: the effective timeout in seconds used
for a scan; `none` means no timeout was set. -/
def effectiveTimeoutSecs (t : Option Nat) : Nat :=
  match t with
  | some secs => min (roundF32Nat secs) 315360000
  | none => 315360000

/-- multi_stream.rs line 407: the evaluator deadline for a scan is the
current heartbeat (epoch) counter plus the effective timeout. -/
def scanDeadline (epoch : Nat) (t : Option Nat) : Nat :=
  epoch + effectiveTimeoutSecs t

/-! ## The optional trace-id side cache (offset_cache.rs)

The durable LevelDB store and the `lru` crate are external; the store is
modelled as an association list and the LRU layer from the spec (section
6.3: "an in-memory LRU of bounded capacity"): most recent first, lookup
promotes, insertion truncates to capacity. -/

def lookupS : List (String × List Nat) → String → Option (List Nat)
  | [], _ => none
  | (k', v) :: rest, k => if k' = k then some v else lookupS rest k

def updateS : List (String × List Nat) → String → List Nat →
    List (String × List Nat)
  | [], k, v => [(k, v)]
  | (k', v') :: rest, k, v =>
    if k' = k then (k, v) :: rest else (k', v') :: updateS rest k v

/-- LRU insertion: put the entry in front, drop any older entry for the
same key, truncate to capacity. -/
def lruPut (cap : Nat) (l : List (String × List Nat)) (k : String)
    (v : List Nat) : List (String × List Nat) :=
  ((k, v) :: l.filter (fun e => e.1 != k)).take cap

/-- `OffsetCache` (offset_cache.rs lines 10-17): the durable store plus the
in-memory LRU layer. -/
structure OffsetCache where
  db : List (String × List Nat)
  lru : List (String × List Nat)
  lru_capacity : Nat

/-- `OffsetCache::new` (offset_cache.rs lines 21-37): fresh store, LRU
created with capacity exactly 1000. -/
def OffsetCache.new : OffsetCache :=
  { db := [], lru := [], lru_capacity := 1000 }

/-- `OffsetCache::put` (offset_cache.rs lines 40-51): store in the durable
store, then update the LRU. -/
def OffsetCache.put (c : OffsetCache) (trace_id : String) (dat : List Nat) :
    OffsetCache :=
  { c with db := updateS c.db trace_id dat
           lru := lruPut c.lru_capacity c.lru trace_id dat }

/-- `OffsetCache::get` (offset_cache.rs lines 54-73): check the LRU first;
on a miss read the durable store and refresh the LRU. -/
def OffsetCache.get (c : OffsetCache) (trace_id : String) :
    Option (List Nat) × OffsetCache :=
  match lookupS c.lru trace_id with
  | some v =>
    (some v, { c with lru := lruPut c.lru_capacity c.lru trace_id v })
  | none =>
    match lookupS c.db trace_id with
    | some v =>
      (some v, { c with lru := lruPut c.lru_capacity c.lru trace_id v })
    | none => (none, c)

/-- `OffsetCache::delete` (offset_cache.rs lines 131-140). -/
def OffsetCache.delete (c : OffsetCache) (trace_id : String) : OffsetCache :=
  { c with db := c.db.filter (fun e => e.1 != trace_id)
           lru := c.lru.filter (fun e => e.1 != trace_id) }

/-- `OffsetCache::put_batch` (offset_cache.rs lines 76-93): individual
durable puts, then the LRU updates. -/
def OffsetCache.put_batch (c : OffsetCache)
    (entries : List (String × List Nat)) : OffsetCache :=
  { c with db := entries.foldl (fun db e => updateS db e.1 e.2) c.db
           lru := entries.foldl (fun l e => lruPut c.lru_capacity l e.1 e.2)
             c.lru }

/-- `OffsetCache::clear` (offset_cache.rs lines 96-128): empties both the
LRU and the durable store. -/
def OffsetCache.clear (c : OffsetCache) : OffsetCache :=
  { c with db := [], lru := [] }

inductive CacheOp where
  | put (trace_id : String) (dat : List Nat)
  | get (trace_id : String)
  | delete (trace_id : String)
  | put_batch (entries : List (String × List Nat))
  | clear

def runCacheOp (c : OffsetCache) : CacheOp → OffsetCache
  | CacheOp.put t dat => c.put t dat
  | CacheOp.get t => (c.get t).2
  | CacheOp.delete t => c.delete t
  | CacheOp.put_batch es => c.put_batch es
  | CacheOp.clear => c.clear

def runCacheOps (c : OffsetCache) (ops : List CacheOp) : OffsetCache :=
  ops.foldl runCacheOp c

/-- An operation that neither deletes, clears, nor overwrites trace id
`t`. -/
def opAvoids (t : String) : CacheOp → Prop
  | CacheOp.put i _ => i ≠ t
  | CacheOp.get _ => True
  | CacheOp.delete i => i ≠ t
  | CacheOp.put_batch es => ∀ e ∈ es, e.1 ≠ t
  | CacheOp.clear => False

/-- An operation that does not put trace id `t`. -/
def opNoPut (t : String) : CacheOp → Prop
  | CacheOp.put i _ => i ≠ t
  | CacheOp.put_batch es => ∀ e ∈ es, e.1 ≠ t
  | _ => True

/-! ## Offset-cache invariants -/

theorem lookupS_mem {l : List (String × List Nat)} {t : String} {v : List Nat}
    (h : lookupS l t = some v) : (t, v) ∈ l := by
  induction l with
  | nil => cases h
  | cons e rest ih =>
    obtain ⟨k', v'⟩ := e
    by_cases hk : k' = t
    · subst hk
      simp only [lookupS, if_pos rfl] at h
      rw [← Option.some.inj h]
      exact List.mem_cons_self _ _
    · simp only [lookupS, hk, if_false] at h
      exact List.mem_cons_of_mem _ (ih h)

theorem lookupS_eq_none_of_absent {l : List (String × List Nat)} {t : String}
    (h : ∀ e ∈ l, e.1 ≠ t) : lookupS l t = none := by
  induction l with
  | nil => rfl
  | cons e rest ih =>
    obtain ⟨k', v'⟩ := e
    have hk : k' ≠ t := h (k', v') (List.mem_cons_self _ _)
    simp only [lookupS, hk, if_false]
    exact ih (fun e he => h e (List.mem_cons_of_mem _ he))

theorem lookupS_updateS_self (l : List (String × List Nat)) (k : String)
    (v : List Nat) : lookupS (updateS l k v) k = some v := by
  induction l with
  | nil => simp [updateS, lookupS]
  | cons e rest ih =>
    obtain ⟨k', v'⟩ := e
    by_cases hk : k' = k
    · simp [updateS, hk, lookupS]
    · simp [updateS, hk, lookupS, ih]

theorem lookupS_updateS_ne (l : List (String × List Nat)) {k s : String}
    (v : List Nat) (h : k ≠ s) :
    lookupS (updateS l k v) s = lookupS l s := by
  induction l with
  | nil => simp [updateS, lookupS, h]
  | cons e rest ih =>
    obtain ⟨k', v'⟩ := e
    simp only [updateS]
    by_cases hk : k' = k
    · subst hk
      simp [lookupS, h]
    · simp only [hk, if_false, lookupS]
      by_cases hs : k' = s
      · simp [hs]
      · simp [hs, ih]

theorem mem_updateS {l : List (String × List Nat)} {k : String}
    {v : List Nat} {e : String × List Nat} (h : e ∈ updateS l k v) :
    e = (k, v) ∨ e ∈ l := by
  induction l with
  | nil =>
    simp [updateS] at h
    exact Or.inl h
  | cons x rest ih =>
    obtain ⟨k', v'⟩ := x
    by_cases hk : k' = k
    · simp only [updateS, hk, if_pos rfl] at h
      rcases List.mem_cons.mp h with h | h
      · exact Or.inl h
      · exact Or.inr (List.mem_cons_of_mem _ h)
    · simp only [updateS, hk, if_false] at h
      rcases List.mem_cons.mp h with h | h
      · exact Or.inr (by rw [h]; exact List.mem_cons_self _ _)
      · rcases ih h with h | h
        · exact Or.inl h
        · exact Or.inr (List.mem_cons_of_mem _ h)

theorem lookupS_filter_ne (l : List (String × List Nat)) {t k : String}
    (h : k ≠ t) :
    lookupS (l.filter (fun e => e.1 != k)) t = lookupS l t := by
  induction l with
  | nil => rfl
  | cons e rest ih =>
    obtain ⟨k', v'⟩ := e
    simp only [List.filter_cons]
    by_cases hk : k' = k
    · have hb : ((k', v').1 != k) = false := by simp [hk]
      have ht : ¬ (k' = t) := by rw [hk]; exact h
      rw [hb]
      simp only [Bool.false_eq_true, if_false, lookupS, ht, if_false]
      exact ih
    · have hb : ((k', v').1 != k) = true := by simp [bne_iff_ne, hk]
      rw [hb]
      simp only [if_true, lookupS]
      by_cases hs : k' = t
      · simp [hs]
      · simp only [hs, if_false]
        exact ih

theorem mem_take_of_mem {α : Type} {l : List α} {n : Nat} {x : α}
    (h : x ∈ l.take n) : x ∈ l := List.take_subset n l h

/-- All LRU entries for trace id `t` carry value `b`. -/
def lruHolds (l : List (String × List Nat)) (t : String) (b : List Nat) :
    Prop := ∀ e ∈ l, e.1 = t → e.2 = b

theorem lruHolds_lruPut_self (cap : Nat) (l : List (String × List Nat))
    (t : String) (b : List Nat) : lruHolds (lruPut cap l t b) t b := by
  intro e he het
  rcases List.mem_cons.mp (mem_take_of_mem he) with h | h
  · rw [h]
  · have h2 := (List.mem_filter.mp h).2
    have hne : e.1 ≠ t := by simpa [bne_iff_ne] using h2
    exact absurd het hne

theorem lruHolds_lruPut_other {l : List (String × List Nat)} {t : String}
    {b : List Nat} (h : lruHolds l t b) (cap : Nat) (k : String)
    (v : List Nat) (hkv : k = t → v = b) :
    lruHolds (lruPut cap l k v) t b := by
  intro e he het
  rcases List.mem_cons.mp (mem_take_of_mem he) with hh | hh
  · rw [hh] at het ⊢
    exact hkv het
  · exact h e ((List.mem_filter.mp hh).1) het

theorem lruHolds_filter {l : List (String × List Nat)} {t : String}
    {b : List Nat} (h : lruHolds l t b) (f : String × List Nat → Bool) :
    lruHolds (l.filter f) t b :=
  fun e he het => h e ((List.mem_filter.mp he).1) het

theorem foldl_updateS_pres (t : String) (b : List Nat) :
    ∀ (es : List (String × List Nat)) (db : List (String × List Nat)),
      (∀ e ∈ es, e.1 ≠ t) → lookupS db t = some b →
      lookupS (es.foldl (fun db e => updateS db e.1 e.2) db) t = some b := by
  intro es
  induction es with
  | nil => exact fun db _ h => h
  | cons x rest ih =>
    intro db hes h
    rw [List.foldl_cons]
    refine ih _ (fun y hy => hes y (List.mem_cons_of_mem _ hy)) ?_
    rw [lookupS_updateS_ne _ _ (hes x (List.mem_cons_self _ _))]
    exact h

theorem foldl_updateS_absent (t : String) :
    ∀ (es : List (String × List Nat)) (db : List (String × List Nat)),
      (∀ e ∈ es, e.1 ≠ t) → (∀ e ∈ db, e.1 ≠ t) →
      ∀ e ∈ es.foldl (fun db e => updateS db e.1 e.2) db, e.1 ≠ t := by
  intro es
  induction es with
  | nil => exact fun db _ h => h
  | cons x rest ih =>
    intro db hes h
    rw [List.foldl_cons]
    refine ih _ (fun y hy => hes y (List.mem_cons_of_mem _ hy)) ?_
    intro e he
    rcases mem_updateS he with h1 | h1
    · rw [h1]
      exact hes x (List.mem_cons_self _ _)
    · exact h e h1

theorem foldl_lruPut_holds (t : String) (b : List Nat) (cap : Nat) :
    ∀ (es : List (String × List Nat)) (l : List (String × List Nat)),
      (∀ e ∈ es, e.1 ≠ t) → lruHolds l t b →
      lruHolds (es.foldl (fun l e => lruPut cap l e.1 e.2) l) t b := by
  intro es
  induction es with
  | nil => exact fun l _ h => h
  | cons x rest ih =>
    intro l hes h
    rw [List.foldl_cons]
    exact ih _ (fun y hy => hes y (List.mem_cons_of_mem _ hy))
      (lruHolds_lruPut_other h _ _ _
        (fun hit => absurd hit (hes x (List.mem_cons_self _ _))))

theorem foldl_lruPut_absent (t : String) (cap : Nat) :
    ∀ (es : List (String × List Nat)) (l : List (String × List Nat)),
      (∀ e ∈ es, e.1 ≠ t) → (∀ e ∈ l, e.1 ≠ t) →
      ∀ e ∈ es.foldl (fun l e => lruPut cap l e.1 e.2) l, e.1 ≠ t := by
  intro es
  induction es with
  | nil => exact fun l _ h => h
  | cons x rest ih =>
    intro l hes h
    rw [List.foldl_cons]
    refine ih _ (fun y hy => hes y (List.mem_cons_of_mem _ hy)) ?_
    intro e he
    rcases List.mem_cons.mp (mem_take_of_mem he) with h1 | h1
    · rw [h1]
      exact hes x (List.mem_cons_self _ _)
    · exact h e ((List.mem_filter.mp h1).1)

/-- The cache-level invariant behind the get-after-put law. -/
def holdsVal (c : OffsetCache) (t : String) (b : List Nat) : Prop :=
  lookupS c.db t = some b ∧ lruHolds c.lru t b

theorem holdsVal_put_self (c : OffsetCache) (t : String) (b : List Nat) :
    holdsVal (c.put t b) t b :=
  ⟨lookupS_updateS_self _ _ _, lruHolds_lruPut_self _ _ _ _⟩

theorem get_fst_of_holdsVal {c : OffsetCache} {t : String} {b : List Nat}
    (h : holdsVal c t b) : (c.get t).1 = some b := by
  unfold OffsetCache.get
  cases hlru : lookupS c.lru t with
  | some v =>
    have : v = b := h.2 (t, v) (lookupS_mem hlru) rfl
    rw [this]
  | none =>
    rw [h.1]

theorem holdsVal_op {c : OffsetCache} {t : String} {b : List Nat}
    (h : holdsVal c t b) (op : CacheOp) (hop : opAvoids t op) :
    holdsVal (runCacheOp c op) t b := by
  cases op with
  | put i dat =>
    have hne : i ≠ t := hop
    refine ⟨?_, lruHolds_lruPut_other h.2 _ _ _ (fun hh => absurd hh hne)⟩
    show lookupS (updateS c.db i dat) t = some b
    rw [lookupS_updateS_ne _ _ hne]
    exact h.1
  | get i =>
    show holdsVal (c.get i).2 t b
    unfold OffsetCache.get
    cases hlru : lookupS c.lru i with
    | some v =>
      refine ⟨h.1, lruHolds_lruPut_other h.2 _ _ _ ?_⟩
      intro hit
      rw [hit] at hlru
      exact h.2 (t, v) (lookupS_mem hlru) rfl
    | none =>
      cases hdb : lookupS c.db i with
      | some v =>
        refine ⟨h.1, lruHolds_lruPut_other h.2 _ _ _ ?_⟩
        intro hit
        rw [hit] at hdb
        rw [h.1] at hdb
        exact (Option.some.inj hdb).symm
      | none => exact h
  | delete i =>
    have hne : i ≠ t := hop
    refine ⟨?_, lruHolds_filter h.2 _⟩
    show lookupS (c.db.filter (fun e => e.1 != i)) t = some b
    rw [lookupS_filter_ne _ hne]
    exact h.1
  | put_batch es =>
    have hes : ∀ e ∈ es, e.1 ≠ t := hop
    exact ⟨foldl_updateS_pres t b es c.db hes h.1,
      foldl_lruPut_holds t b c.lru_capacity es c.lru hes h.2⟩
  | clear => cases hop

theorem holdsVal_runOps {c : OffsetCache} {t : String} {b : List Nat}
    (h : holdsVal c t b) (ops : List CacheOp)
    (hops : ∀ op ∈ ops, opAvoids t op) :
    holdsVal (runCacheOps c ops) t b := by
  induction ops generalizing c with
  | nil => exact h
  | cons op rest ih =>
    exact ih (holdsVal_op h op (hops op (List.mem_cons_self _ _)))
      (fun x hx => hops x (List.mem_cons_of_mem _ hx))

/-- Trace id `t` is absent from both layers. -/
def absentVal (c : OffsetCache) (t : String) : Prop :=
  (∀ e ∈ c.db, e.1 ≠ t) ∧ (∀ e ∈ c.lru, e.1 ≠ t)

theorem get_fst_of_absentVal {c : OffsetCache} {t : String}
    (h : absentVal c t) : (c.get t).1 = none := by
  unfold OffsetCache.get
  rw [lookupS_eq_none_of_absent h.2, lookupS_eq_none_of_absent h.1]

theorem absentVal_op {c : OffsetCache} {t : String} (h : absentVal c t)
    (op : CacheOp) (hop : opNoPut t op) :
    absentVal (runCacheOp c op) t := by
  cases op with
  | put i dat =>
    have hne : i ≠ t := hop
    constructor
    · intro e he
      rcases mem_updateS he with hh | hh
      · rw [hh]
        exact hne
      · exact h.1 e hh
    · intro e he
      rcases List.mem_cons.mp (mem_take_of_mem he) with hh | hh
      · rw [hh]
        exact hne
      · exact h.2 e ((List.mem_filter.mp hh).1)
  | get i =>
    show absentVal (c.get i).2 t
    unfold OffsetCache.get
    cases hlru : lookupS c.lru i with
    | some v =>
      refine ⟨h.1, ?_⟩
      intro e he
      rcases List.mem_cons.mp (mem_take_of_mem he) with hh | hh
      · rw [hh]
        intro hit
        have hit' : i = t := hit
        rw [hit'] at hlru
        exact h.2 (t, v) (lookupS_mem hlru) rfl
      · exact h.2 e ((List.mem_filter.mp hh).1)
    | none =>
      cases hdb : lookupS c.db i with
      | some v =>
        refine ⟨h.1, ?_⟩
        intro e he
        rcases List.mem_cons.mp (mem_take_of_mem he) with hh | hh
        · rw [hh]
          intro hit
          have hit' : i = t := hit
          rw [hit'] at hdb
          exact h.1 (t, v) (lookupS_mem hdb) rfl
        · exact h.2 e ((List.mem_filter.mp hh).1)
      | none => exact h
  | delete i =>
    exact ⟨fun e he => h.1 e ((List.mem_filter.mp he).1),
      fun e he => h.2 e ((List.mem_filter.mp he).1)⟩
  | put_batch es =>
    have hes : ∀ e ∈ es, e.1 ≠ t := hop
    exact ⟨foldl_updateS_absent t es c.db hes h.1,
      foldl_lruPut_absent t c.lru_capacity es c.lru hes h.2⟩
  | clear =>
    exact ⟨fun e he => absurd he (List.not_mem_nil e),
      fun e he => absurd he (List.not_mem_nil e)⟩

theorem absentVal_runOps {c : OffsetCache} {t : String} (h : absentVal c t)
    (ops : List CacheOp) (hops : ∀ op ∈ ops, opNoPut t op) :
    absentVal (runCacheOps c ops) t := by
  induction ops generalizing c with
  | nil => exact h
  | cons op rest ih =>
    exact ih (absentVal_op h op (hops op (List.mem_cons_self _ _)))
      (fun x hx => hops x (List.mem_cons_of_mem _ hx))

theorem absentVal_new (t : String) : absentVal OffsetCache.new t :=
  ⟨fun e he => absurd he (List.not_mem_nil e),
   fun e he => absurd he (List.not_mem_nil e)⟩

theorem absentVal_delete (c : OffsetCache) (t : String) :
    absentVal (c.delete t) t := by
  constructor
  · intro e he
    have := (List.mem_filter.mp he).2
    simpa [bne_iff_ne] using this
  · intro e he
    have := (List.mem_filter.mp he).2
    simpa [bne_iff_ne] using this

/-! ## Claim theorems -/

/-- Concrete compiled rules for examples: the single pattern `"ab"` and one
non-private rule whose condition holds when pattern 0 has a match. -/
def condNonEmpty : Nat → Store → Bool := fun _ st => !(st 0).isEmpty

def Rab : CompiledRules :=
  { patterns := [[97, 98]]
    ruleInfo := [⟨false⟩]
    cond := condNonEmpty
    max_matches_per_pattern := 100 }

theorem Rab_monotone : MonotoneConds Rab := by
  intro r s t hle hc
  rcases hle 0 with ⟨u, hu⟩
  show (!(t 0).isEmpty) = true
  have hc' : (!(s 0).isEmpty) = true := hc
  rw [← hu]
  cases h0 : s 0 with
  | nil =>
    rw [h0] at hc'
    simp at hc'
  | cons a l => simp

/-- C1 (counterexample): the pattern `"ab"` split across the two chunks
`"a"` and `"b"` of one stream is not found by the chunked scanner, while
the single-shot scan of the concatenation reports the rule: the claimed
equivalence fails as stated. -/
theorem C1_counterexample_boundary :
    get_matches (runOps Rab MultiStreamScanner.new
        [⟨0, [97], true⟩, ⟨0, [98], true⟩]) 0 = some [] ∧
    0 ∈ (scanSingleShot Rab
        (flat ((chunksOf [(⟨0, [97], true⟩ : ScanOp), ⟨0, [98], true⟩] 0).map
          Prod.fst))).1 ∧
    (0 : Nat) ∉ ([] : List Nat) := by
  refine ⟨?_, by decide, by decide⟩
  rfl

/-- C1 (amended): for every operation sequence, when no pattern occurrence
in the concatenation of a stream's chunks spans a chunk boundary, all
patterns are non-empty, every rule condition is monotone in the match
store, and the stream is scanned at least once, the final set of
non-private matching rules reported for the stream equals the set produced
by the single-shot scan of the concatenation. -/
theorem C1_stream_equals_single_shot (R : CompiledRules) (ops : List ScanOp)
    (s : Nat) (hp : ∀ p ∈ R.patterns, p ≠ []) (hm : MonotoneConds R)
    (hcross : noCrossing R [] ((chunksOf ops s).map Prod.fst) = true)
    (hne : chunksOf ops s ≠ []) :
    ∃ l, get_matches (runOps R MultiStreamScanner.new ops) s = some l ∧
      ∀ r, r ∈ l ↔ r ∈ (scanSingleShot R
        (flat ((chunksOf ops s).map Prod.fst))).1 := by
  obtain ⟨c, rest, hcs⟩ : ∃ c rest, chunksOf ops s = c :: rest := by
    cases h : chunksOf ops s with
    | nil => exact absurd h hne
    | cons c rest => exact ⟨c, rest, rfl⟩
  have hlook0 := runOps_lookup R MultiStreamScanner.new ops s INV_new
  have hlook : (lookupA (runOps R MultiStreamScanner.new ops).contexts s).map
      obsOf = streamRun R none (chunksOf ops s) := hlook0
  rw [hcs, streamRun_none_cons] at hlook
  have hgm : get_matches (runOps R MultiStreamScanner.new ops) s
      = some (((c :: rest).foldl (obsStepP R)
          obsInit).non_private_matching_rules) := by
    rw [get_matches_eq _ _ (runOps_INV R _ ops INV_new)]
    have hmm : (lookupA (runOps R MultiStreamScanner.new ops).contexts s).map
          (fun sc => sc.m.non_private_matching_rules)
        = ((lookupA (runOps R MultiStreamScanner.new ops).contexts s).map
            obsOf).map (fun o => o.non_private_matching_rules) := by
      rw [Option.map_map]
      rfl
    rw [hmm, hlook]
    rfl
  refine ⟨_, hgm, ?_⟩
  intro r
  have hinvnp : InvNp R ((c :: rest).foldl (obsStepP R) obsInit) := by
    rw [List.foldl_cons]
    exact InvNp_fold R _ rest hm (InvNp_base R obsInit c rfl rfl)
  have hinit : obsInit.pattern_matches = ssStore R [] := by
    funext pid
    show ([] : List Nat) = ssStore R [] pid
    unfold ssStore
    by_cases hpid : pid < R.patterns.length
    · rw [if_pos hpid]
      have hmem : R.patterns.getD pid [] ∈ R.patterns := by
        rw [List.getD_eq_getElem R.patterns [] hpid]
        exact List.getElem_mem _
      rw [occurrencesIn_nil (hp _ hmem), List.take_nil]
    · rw [if_neg hpid]
  have hlr0 : lrOK R obsInit.pattern_matches obsInit.limit_reached := by
    intro pid hpid
    cases hpid
  have hcross' : noCrossing R []
      (((c :: rest) : List (Bytes × Bool)).map Prod.fst) = true := by
    rw [← hcs]
    exact hcross
  have hstore := storeInv_fold R (c :: rest) [] obsInit hp rfl hinit hlr0
    hcross'
  have hsf : ((c :: rest).foldl (obsStepP R) obsInit).pattern_matches
      = ssStore R (flat (((c :: rest) : List (Bytes × Bool)).map
          Prod.fst)) := by
    have := hstore.2.1
    rwa [List.nil_append] at this
  rw [hinvnp r, hsf, ← hcs]
  exact (scanSingleShot_fst_mem R _ r).symm

/-- C1 (witness): a single whole-data chunk, where the hypotheses hold. -/
theorem C1_stream_equals_single_shot_witness :
    (0 : Nat) ∈ ((get_matches (runOps Rab MultiStreamScanner.new
        [⟨0, [97, 98], true⟩]) 0).getD []) := by
  rcases C1_stream_equals_single_shot Rab [⟨0, [97, 98], true⟩] 0 (by decide)
      Rab_monotone (by decide) (by decide) with ⟨l, hl, hiff⟩
  rw [hl]
  exact (hiff 0).mpr (by decide)

/-- C2: after every successful scan each stream's `non_private_matching_
rules` and `private_matching_rules` are duplicate-free and disjoint, the
scanned stream's lists before the scan are prefixes of the lists after it,
and the drain routes each pending rule id to the private list when its rule
is private and to the non-private list otherwise, only when not already
present. -/
theorem C2_match_list_invariants (R : CompiledRules) (d : MultiStreamScanner)
    (k : Nat) (dat : Bytes) (cl : Bool) (hInv : INV d) (hw : WFn R d) :
    (∀ s sc, lookupA (scanDataOk R d k dat cl).contexts s = some sc →
      sc.m.non_private_matching_rules.Nodup ∧
      sc.m.private_matching_rules.Nodup ∧
      ∀ r ∈ sc.m.non_private_matching_rules,
        r ∉ sc.m.private_matching_rules) ∧
    (∀ sc sc', lookupA d.contexts k = some sc →
      lookupA (scanDataOk R d k dat cl).contexts k = some sc' →
      (∃ t, sc.m.non_private_matching_rules ++ t
          = sc'.m.non_private_matching_rules) ∧
      (∃ u, sc.m.private_matching_rules ++ u
          = sc'.m.private_matching_rules)) ∧
    (∀ np pr pending r,
      (r ∈ (drainPending R np pr pending).1
        ↔ r ∈ np ∨ (r ∈ pending ∧ rulePriv R r = false)) ∧
      (r ∈ (drainPending R np pr pending).2
        ↔ r ∈ pr ∨ (r ∈ pending ∧ rulePriv R r = true))) := by
  refine ⟨?_, ?_, ?_⟩
  · intro s sc hl
    have hndw := scanDataOk_WFn R d k dat cl hInv hw s sc hl
    exact ⟨hndw.1, hndw.2.1, NDW_disjoint hndw⟩
  · intro sc sc' hsc hsc'
    have h := scanDataOk_lookup_self R d k dat cl hInv
    rw [hsc', hsc] at h
    have hobs := Option.some.inj h
    have hnp : sc'.m.non_private_matching_rules
        = (drainPending R sc.m.non_private_matching_rules
            sc.m.private_matching_rules
            (firedRules R (searchChunk R sc.m.pattern_matches
              sc.m.limit_reached dat sc.total_bytes_processed).1)).1 :=
      congrArg StreamObs.non_private_matching_rules hobs
    have hpr : sc'.m.private_matching_rules
        = (drainPending R sc.m.non_private_matching_rules
            sc.m.private_matching_rules
            (firedRules R (searchChunk R sc.m.pattern_matches
              sc.m.limit_reached dat sc.total_bytes_processed).1)).2 :=
      congrArg StreamObs.private_matching_rules hobs
    rw [hnp, hpr]
    exact drainPending_grows R _ _ _
  · intro np pr pending r
    exact ⟨drainPending_fst_mem R np pr pending r,
      drainPending_snd_mem R np pr pending r⟩

/-- C2 (witness): drain routing on a concrete pending set. -/
theorem C2_match_list_invariants_witness :
    (0 : Nat) ∈ (drainPending Rab [] [] [0]).1 ∧
    (0 : Nat) ∉ (drainPending Rab [] [] [0]).2 := by
  have h := C2_match_list_invariants Rab MultiStreamScanner.new 0 [97] true
    INV_new (WFn_new Rab)
  constructor
  · exact ((h.2.2 [] [] [0] 0).1).mpr (Or.inr ⟨by decide, by decide⟩)
  · intro hmem
    rcases ((h.2.2 [] [] [0] 0).2).mp hmem with hc | ⟨_, hc⟩
    · cases hc
    · have : rulePriv Rab 0 = false := by decide
      rw [this] at hc
      cases hc

/-- C3: the matching rules reported for a stream depend only on the chunk
sequence that stream received; two runs feeding identical chunk sequences
to stream `s` and arbitrary different operations on other streams report
identical matching rules for `s`. -/
theorem C3_stream_isolation (R : CompiledRules) (ops1 ops2 : List ScanOp)
    (s : Nat) (h : chunksOf ops1 s = chunksOf ops2 s) :
    get_matches (runOps R MultiStreamScanner.new ops1) s
      = get_matches (runOps R MultiStreamScanner.new ops2) s := by
  have h1 := runOps_lookup R MultiStreamScanner.new ops1 s INV_new
  have h2 := runOps_lookup R MultiStreamScanner.new ops2 s INV_new
  rw [get_matches_eq _ _ (runOps_INV R _ ops1 INV_new),
    get_matches_eq _ _ (runOps_INV R _ ops2 INV_new)]
  have e1 : (lookupA (runOps R MultiStreamScanner.new ops1).contexts s).map
        (fun sc => sc.m.non_private_matching_rules)
      = ((lookupA (runOps R MultiStreamScanner.new ops1).contexts s).map
          obsOf).map (fun o => o.non_private_matching_rules) := by
    rw [Option.map_map]
    rfl
  have e2 : (lookupA (runOps R MultiStreamScanner.new ops2).contexts s).map
        (fun sc => sc.m.non_private_matching_rules)
      = ((lookupA (runOps R MultiStreamScanner.new ops2).contexts s).map
          obsOf).map (fun o => o.non_private_matching_rules) := by
    rw [Option.map_map]
    rfl
  rw [e1, e2, h1, h2, h]

/-- C3 (witness): interleaving stream 1 differently leaves stream 0's
matches unchanged. -/
theorem C3_stream_isolation_witness :
    get_matches (runOps Rab MultiStreamScanner.new
        [⟨0, [97, 98], true⟩, ⟨1, [98], false⟩]) 0
      = get_matches (runOps Rab MultiStreamScanner.new
          [⟨1, [99, 99], true⟩, ⟨0, [97, 98], true⟩, ⟨1, [97], false⟩]) 0 :=
  C3_stream_isolation Rab _ _ 0 (by decide)

/-- C4: a successful `scan_chunk` advances `lines_processed` by the number
of newline bytes plus one when the chunk is non-empty and does not end in a
newline; a successful `scan_line` advances it by exactly one, regardless of
content.  The same holds for the `StreamingScanner`. -/
theorem C4_line_counting (R : CompiledRules) (d : MultiStreamScanner)
    (k : Nat) (dat dat2 : Bytes) (hInv : INV d) :
    lines_processed (scan_chunk R d k dat) k
      = some ((lines_processed d k).getD 0
          + (countNewlines dat
            + (if dat ≠ [] ∧ dat.getLast? ≠ some 10 then 1 else 0))) ∧
    lines_processed (scan_line R d k dat2) k
      = some ((lines_processed d k).getD 0 + 1) ∧
    (∀ S : StreamingScanner,
      (StreamingScanner.scanDataOk R S dat true).line_count
        = S.line_count + (countNewlines dat
          + (if dat ≠ [] ∧ dat.getLast? ≠ some 10 then 1 else 0))) ∧
    (∀ S : StreamingScanner,
      (StreamingScanner.scanDataOk R S dat2 false).line_count
        = S.line_count + 1) := by
  refine ⟨?_, ?_, fun S => rfl, fun S => rfl⟩
  · rw [show scan_chunk R d k dat = scanDataOk R d k dat true from rfl,
      lines_processed_scan R d k dat true hInv]
    rfl
  · rw [show scan_line R d k dat2 = scanDataOk R d k dat2 false from rfl,
      lines_processed_scan R d k dat2 false hInv]
    rfl

/-- C4 (witness): `"a\nb"` counts two lines as a chunk; a line counts
one. -/
theorem C4_line_counting_witness :
    lines_processed (scan_chunk Rab MultiStreamScanner.new 0 [97, 10, 98]) 0
      = some 2 ∧
    lines_processed (scan_line Rab MultiStreamScanner.new 0 [97, 10, 98]) 0
      = some 1 := by
  have h := C4_line_counting Rab MultiStreamScanner.new 0 [97, 10, 98]
    [97, 10, 98] INV_new
  constructor
  · rw [h.1]
    decide
  · rw [h.2.1]
    decide

/-- C5: a successful scan of a chunk of length `L` advances
`bytes_processed` by exactly `L`, and after any operation sequence a
scanned stream's `bytes_processed` equals the sum of the lengths of its
chunks (and is `none` for a stream never scanned). -/
theorem C5_bytes_accounting (R : CompiledRules) (d : MultiStreamScanner)
    (k : Nat) (dat : Bytes) (cl : Bool) (ops : List ScanOp) (s : Nat)
    (hInv : INV d) :
    bytes_processed (scanDataOk R d k dat cl) k
      = some ((bytes_processed d k).getD 0 + dat.length) ∧
    (chunksOf ops s = [] →
      bytes_processed (runOps R MultiStreamScanner.new ops) s = none) ∧
    (chunksOf ops s ≠ [] →
      bytes_processed (runOps R MultiStreamScanner.new ops) s
        = some (((chunksOf ops s).map (fun c => c.1.length)).sum)) := by
  refine ⟨bytes_processed_scan R d k dat cl hInv, ?_, ?_⟩
  · intro hnil
    have hlook : (lookupA (runOps R MultiStreamScanner.new ops).contexts
        s).map obsOf = streamRun R none (chunksOf ops s) :=
      runOps_lookup R MultiStreamScanner.new ops s INV_new
    rw [hnil] at hlook
    unfold bytes_processed
    cases hl : lookupA (runOps R MultiStreamScanner.new ops).contexts s with
    | none => rfl
    | some sc =>
      rw [hl] at hlook
      cases hlook
  · intro hne
    obtain ⟨c, rest, hcs⟩ : ∃ c rest, chunksOf ops s = c :: rest := by
      cases h : chunksOf ops s with
      | nil => exact absurd h hne
      | cons c rest => exact ⟨c, rest, rfl⟩
    have hlook : (lookupA (runOps R MultiStreamScanner.new ops).contexts
        s).map obsOf = streamRun R none (chunksOf ops s) :=
      runOps_lookup R MultiStreamScanner.new ops s INV_new
    rw [hcs, streamRun_none_cons] at hlook
    unfold bytes_processed
    have hb : (lookupA (runOps R MultiStreamScanner.new ops).contexts s).map
          (fun sc => sc.total_bytes_processed)
        = ((lookupA (runOps R MultiStreamScanner.new ops).contexts s).map
            obsOf).map (fun o => o.total_bytes_processed) := by
      rw [Option.map_map]
      rfl
    rw [hb, hlook]
    show some (((c :: rest).foldl (obsStepP R)
      obsInit).total_bytes_processed) = _
    rw [foldl_bytes]
    rw [hcs]
    show some (0 + _) = _
    rw [Nat.zero_add]

/-- C5 (witness): two chunks of lengths 2 and 1 give 3 bytes. -/
theorem C5_bytes_accounting_witness :
    bytes_processed (runOps Rab MultiStreamScanner.new
        [⟨0, [97, 98], true⟩, ⟨0, [99], false⟩]) 0 = some 3 := by
  have h := C5_bytes_accounting Rab MultiStreamScanner.new 0 [] true
    [⟨0, [97, 98], true⟩, ⟨0, [99], false⟩] 0 INV_new
  rw [h.2.2 (by decide)]
  decide

theorem get_matches_lookup {d : MultiStreamScanner} {k : Nat}
    {sc : StreamContext} (h : lookupA d.contexts k = some sc) :
    get_matches d k = some (if d.active_stream = some k
      then d.ctx.non_private_matching_rules
      else sc.m.non_private_matching_rules) := by
  unfold get_matches
  cases hl : lookupA d.contexts k with
  | none =>
    rw [hl] at h
    cases h
  | some sc0 =>
    rw [hl] at h
    have : sc0 = sc := Option.some.inj h
    subst this
    rfl

theorem get_matches_none {d : MultiStreamScanner} {k : Nat}
    (h : lookupA d.contexts k = none) : get_matches d k = none := by
  unfold get_matches
  cases hl : lookupA d.contexts k with
  | none => rfl
  | some sc0 =>
    rw [hl] at h
    cases h

theorem close_lookup_none (d : MultiStreamScanner) (s : Nat) (hInv : INV d) :
    lookupA (close_stream d s).2.contexts s = none := by
  by_cases hact : d.active_stream = some s
  · rcases hInv s hact with ⟨ca, hla, _⟩
    rw [close_eq_active hact hla]
    exact lookupA_removeA_self _ _
  · cases hl : lookupA d.contexts s with
    | some c =>
      rw [close_eq_inactive_found hact hl]
      exact lookupA_removeA_self _ _
    | none =>
      rw [close_eq_inactive_missing hact hl]
      exact hl

/-- C6: closing a stream with a live context returns its final non-private
matching rules and counters and removes the key, so the subsequent queries
return `none`; closing an unknown key returns `none` and leaves the
dispatcher unchanged; a scan referencing the stream after it was closed
acts on a fresh zero-initialized context. -/
theorem C6_close_stream (R : CompiledRules) (d : MultiStreamScanner)
    (s : Nat) (dat : Bytes) (cl : Bool) (hInv : INV d) :
    (∀ sc, lookupA d.contexts s = some sc →
      (close_stream d s).1 = some
        { non_private_matching_rules := sc.m.non_private_matching_rules
          bytes_processed := sc.total_bytes_processed
          lines_processed := sc.line_count }) ∧
    (get_matches (close_stream d s).2 s = none ∧
      bytes_processed (close_stream d s).2 s = none ∧
      lines_processed (close_stream d s).2 s = none) ∧
    (lookupA d.contexts s = none → close_stream d s = (none, d)) ∧
    ((lookupA (scanDataOk R (close_stream d s).2 s dat cl).contexts s).map
        obsOf = some (obsStep R obsInit dat cl)) := by
  have hnone := close_lookup_none d s hInv
  refine ⟨?_, ?_, ?_, ?_⟩
  · intro sc hsc
    by_cases hact : d.active_stream = some s
    · rcases hInv s hact with ⟨ca, hla, hma⟩
      have hca : ca = sc := Option.some.inj (hla.symm.trans hsc)
      subst hca
      rw [close_eq_active hact hsc]
      rw [hma.2.2.1]
    · rw [close_eq_inactive_found hact hsc]
  · exact ⟨get_matches_none hnone, by unfold bytes_processed; rw [hnone]; rfl,
      by unfold lines_processed; rw [hnone]; rfl⟩
  · intro hl
    have hact : ¬ d.active_stream = some s := by
      intro hact
      rcases hInv s hact with ⟨ca, hla, _⟩
      rw [hl] at hla
      cases hla
    exact close_eq_inactive_missing hact hl
  · have hInv' := close_INV d s hInv
    have h := scanDataOk_lookup_self R (close_stream d s).2 s dat cl hInv'
    rw [hnone] at h
    exact h

/-- Shared concrete dispatcher state for examples: one scan of `"ab"` on
stream 0. -/
def dEx : MultiStreamScanner :=
  scanDataOk Rab MultiStreamScanner.new 0 [97, 98] true

theorem dEx_INV : INV dEx :=
  scanDataOk_INV Rab MultiStreamScanner.new 0 [97, 98] true INV_new

theorem dEx_lookup : lookupA dEx.contexts 0
    = some ((lookupA dEx.contexts 0).getD StreamContext.new) := rfl

/-- C6 (witness). -/
theorem C6_close_stream_witness :
    (close_stream dEx 0).1 = some
      { non_private_matching_rules := [0]
        bytes_processed := 2
        lines_processed := 1 } ∧
    bytes_processed (close_stream dEx 0).2 0 = none ∧
    (close_stream dEx 1).1 = none := by
  have h0 := C6_close_stream Rab dEx 0 [] true dEx_INV
  have h1 := C6_close_stream Rab dEx 1 [] true dEx_INV
  refine ⟨?_, h0.2.1.2.1, ?_⟩
  · rw [h0.1 ((lookupA dEx.contexts 0).getD StreamContext.new) dEx_lookup]
    decide
  · have hl1 : lookupA dEx.contexts 1 = none := rfl
    rw [h1.2.2.1 hl1]

/-- C7: resetting a known stream zeroes its context while the key stays
registered, and leaves every other stream's context and reported matches
unchanged. -/
theorem C7_reset_stream (d : MultiStreamScanner) (s : Nat)
    (sc : StreamContext) (h : lookupA d.contexts s = some sc) :
    get_matches (reset_stream d s) s = some [] ∧
    bytes_processed (reset_stream d s) s = some 0 ∧
    lines_processed (reset_stream d s) s = some 0 ∧
    s ∈ active_streams (reset_stream d s) ∧
    (∀ k, k ≠ s →
      lookupA (reset_stream d s).contexts k = lookupA d.contexts k) ∧
    (∀ k, k ≠ s → get_matches (reset_stream d s) k = get_matches d k) := by
  have hctxs : (reset_stream d s).contexts
      = insertA d.contexts s StreamContext.new := by
    by_cases hact : d.active_stream = some s
    · rw [reset_eq_found_active h hact]
    · rw [reset_eq_found_inactive h hact]
  have hl' : lookupA (reset_stream d s).contexts s
      = some StreamContext.new := by
    rw [hctxs]
    exact lookupA_insertA_self _ _ _
  have hacts : (reset_stream d s).active_stream = d.active_stream := by
    by_cases hact : d.active_stream = some s
    · rw [reset_eq_found_active h hact]
    · rw [reset_eq_found_inactive h hact]
  refine ⟨?_, ?_, ?_, ?_, ?_, ?_⟩
  · rw [get_matches_lookup hl', hacts]
    by_cases hact : d.active_stream = some s
    · rw [if_pos hact]
      rw [reset_eq_found_active h hact]
      rfl
    · rw [if_neg hact]
      rfl
  · unfold bytes_processed
    rw [hl']
    rfl
  · unfold lines_processed
    rw [hl']
    rfl
  · unfold active_streams
    rw [hctxs]
    exact (keys_insertA _ _ _ _).mpr (Or.inl rfl)
  · intro k hk
    rw [hctxs]
    exact lookupA_insertA_ne _ _ (fun hh => hk hh.symm)
  · intro k hk
    have hlk : lookupA (reset_stream d s).contexts k
        = lookupA d.contexts k := by
      rw [hctxs]
      exact lookupA_insertA_ne _ _ (fun hh => hk hh.symm)
    cases hdk : lookupA d.contexts k with
    | none =>
      rw [get_matches_none (hlk.trans hdk), get_matches_none hdk]
    | some ck =>
      rw [get_matches_lookup (hlk.trans hdk), get_matches_lookup hdk, hacts]
      by_cases hak : d.active_stream = some k
      · have hact : d.active_stream = some s → False := by
          intro hact
          rw [hact] at hak
          exact hk (Option.some.inj hak).symm
        by_cases hact' : d.active_stream = some s
        · exact absurd hact' hact
        · rw [reset_eq_found_inactive h hact']
      · rw [if_neg hak, if_neg hak]

/-- C7 (witness). -/
theorem C7_reset_stream_witness :
    get_matches (reset_stream dEx 0) 0 = some [] ∧
    bytes_processed (reset_stream dEx 0) 0 = some 0 ∧
    lines_processed (reset_stream dEx 0) 0 = some 0 ∧
    0 ∈ active_streams (reset_stream dEx 0) := by
  have h := C7_reset_stream dEx 0
    ((lookupA dEx.contexts 0).getD StreamContext.new) dEx_lookup
  exact ⟨h.1, h.2.1, h.2.2.1, h.2.2.2.1⟩

/-- C8 (counterexample): at a whole-second timeout of `2^24 + 1` seconds
the `f32` conversion in the code rounds down, so the effective timeout is
not `min(ceil(user seconds), 315_360_000)` as claimed. -/
theorem C8_counterexample_f32 :
    effectiveTimeoutSecs (some 16777217) = 16777216 ∧
    min 16777217 315360000 = 16777217 ∧ (16777216 : Nat) ≠ 16777217 := by
  exact ⟨by decide, by decide, by decide⟩

/-- C8 (amended): for whole-second timeouts of at most `2^24` seconds the
effective timeout equals `min(user seconds, 315_360_000)` (beyond `2^24`
seconds the `f32` conversion may round the value); with no timeout set it
is `315_360_000`; the deadline is the epoch counter plus the effective
timeout; deadline expiry surfaces as the distinct `Timeout` error kind. -/
theorem C8_timeout_clamping :
    (∀ s : Nat, s ≤ 2 ^ 24 →
      effectiveTimeoutSecs (some s) = min s 315360000) ∧
    effectiveTimeoutSecs none = 315360000 ∧
    (∀ epoch t, scanDeadline epoch t = epoch + effectiveTimeoutSecs t) ∧
    (∀ (R : CompiledRules) (d : MultiStreamScanner) (k : Nat) (dat : Bytes)
      (cl : Bool), (scanData R (some ScanErr.timeout) d k dat cl).2
        = some ScanErr.timeout) ∧
    ScanErr.timeout ≠ ScanErr.moduleError := by
  refine ⟨?_, rfl, fun epoch t => rfl, ?_, by decide⟩
  · intro s hs
    have hr : roundF32Nat s = s := by
      unfold roundF32Nat
      rw [if_pos hs]
    show min (roundF32Nat s) 315360000 = min s 315360000
    rw [hr]
  · intro R d k dat cl
    exact (scanData_err_state R ScanErr.timeout d k dat cl).2

/-- C8 (witness). -/
theorem C8_timeout_clamping_witness :
    (5 : Nat) ≤ 2 ^ 24 ∧ effectiveTimeoutSecs (some 5) = min 5 315360000 :=
  ⟨by decide, C8_timeout_clamping.1 5 (by decide)⟩

/-- C9: the in-memory LRU layer is created with capacity exactly 1000;
`get t` after `put t b` with arbitrary later operations on other trace ids
returns `some b`; `get` of an id never put, or of a deleted id, returns
`none`. -/
theorem C9_offset_cache (c : OffsetCache) (t : String) (b : List Nat)
    (ops ops2 ops3 : List CacheOp) :
    OffsetCache.new.lru_capacity = 1000 ∧
    ((∀ op ∈ ops, opAvoids t op) →
      ((runCacheOps (c.put t b) ops).get t).1 = some b) ∧
    ((∀ op ∈ ops2, opNoPut t op) →
      ((runCacheOps OffsetCache.new ops2).get t).1 = none) ∧
    ((∀ op ∈ ops3, opNoPut t op) →
      ((runCacheOps (c.delete t) ops3).get t).1 = none) := by
  refine ⟨rfl, ?_, ?_, ?_⟩
  · intro hops
    exact get_fst_of_holdsVal
      (holdsVal_runOps (holdsVal_put_self c t b) ops hops)
  · intro hops
    exact get_fst_of_absentVal
      (absentVal_runOps (absentVal_new t) ops2 hops)
  · intro hops
    exact get_fst_of_absentVal
      (absentVal_runOps (absentVal_delete c t) ops3 hops)

/-- C9 (witness). -/
theorem C9_offset_cache_witness :
    ((runCacheOps (OffsetCache.new.put "t1" [1, 2])
        [CacheOp.put "u" [3]]).get "t1").1 = some [1, 2] ∧
    ((runCacheOps OffsetCache.new [CacheOp.delete "t1"]).get "t1").1
      = none := by
  have h := C9_offset_cache OffsetCache.new "t1" [1, 2]
    [CacheOp.put "u" [3]] [CacheOp.delete "t1"] []
  refine ⟨h.2.1 ?_, h.2.2.1 ?_⟩
  · intro op hop
    rw [List.mem_singleton.mp hop]
    show ("u" : String) ≠ "t1"
    decide
  · intro op hop
    rw [List.mem_singleton.mp hop]
    show True
    trivial

/-- C10: a `scan_chunk`/`scan_line` call that fails (timeout or module
initialization error) leaves every existing stream's `bytes_processed` and
`lines_processed` unchanged: counters are advanced only after a successful
evaluator invocation. -/
theorem C10_error_preserves_counters (R : CompiledRules) (e : ScanErr)
    (d : MultiStreamScanner) (k : Nat) (dat : Bytes) (cl : Bool) (s : Nat)
    (sc : StreamContext) (h : lookupA d.contexts s = some sc) :
    bytes_processed (scanData R (some e) d k dat cl).1 s
      = some sc.total_bytes_processed ∧
    lines_processed (scanData R (some e) d k dat cl).1 s
      = some sc.line_count ∧
    (scanData R (some e) d k dat cl).2 = some e := by
  rcases scanData_err_state R e d k dat cl with ⟨hst, hsnd⟩
  rcases switch_counters d k s h with ⟨sc', hls, hb, hc⟩
  refine ⟨?_, ?_, hsnd⟩
  · unfold bytes_processed
    rw [hst, hls]
    show some sc'.total_bytes_processed = _
    rw [hb]
  · unfold lines_processed
    rw [hst, hls]
    show some sc'.line_count = _
    rw [hc]

/-- C10 (witness): a timed-out scan of more data on stream 0 leaves the
previous counters (2 bytes, 1 line). -/
theorem C10_error_preserves_counters_witness :
    bytes_processed (scanData Rab (some ScanErr.timeout) dEx 0
        [9, 9, 9] true).1 0 = some 2 ∧
    lines_processed (scanData Rab (some ScanErr.timeout) dEx 0
        [9, 9, 9] true).1 0 = some 1 ∧
    (scanData Rab (some ScanErr.timeout) dEx 0 [9, 9, 9] true).2
      = some ScanErr.timeout := by
  have h := C10_error_preserves_counters Rab ScanErr.timeout dEx 0 [9, 9, 9]
    true 0 ((lookupA dEx.contexts 0).getD StreamContext.new) dEx_lookup
  refine ⟨?_, ?_, h.2.2⟩
  · rw [h.1]
    decide
  · rw [h.2.1]
    decide

end YaraStream
